import Mathlib

/-!
Verification of the pyTigerGraph schema-text parser and query-output
decoder/deduplicator.  The Python source is shallowly embedded: Python
strings become Lean Strings manipulated through character lists, Python
dicts become association lists preserving insertion order, Python
exceptions become an explicit error type, and Python reference semantics
for the dict records mutated in place by parseQueryOutput are modelled by
an explicit heap of values addressed by natural numbers.
-/

/-- Errors a Python execution can raise in the embedded fragments. -/
inductive PyErr where
  | indexError
  | keyError
  | typeError
  | attributeError
  | outOfFuel
deriving DecidableEq, Repr

deriving instance DecidableEq for Except

/-! ### Python string primitives, on character lists -/

/-- Checks that the first list is a leading segment of the second. -/
def leadSeg : List Char → List Char → Bool
  | [], _ => true
  | _ :: _, [] => false
  | a :: as, b :: bs => a == b && leadSeg as bs

/-- Position of the first occurrence of the needle in the haystack. -/
def findSub (needle : List Char) (hay : List Char) : Option Nat :=
  if leadSeg needle hay then some 0
  else
    match hay with
    | [] => none
    | _ :: t => (findSub needle t).map (· + 1)

/-- Models Python str.find: first index of the needle, or -1. -/
def pyFind (s sub : String) : Int :=
  match findSub sub.data s.data with
  | some n => (n : Int)
  | none => -1

/-- Normalizes a Python slice bound against a length (negative counts from the end). -/
def normIdx (n : Nat) (i : Int) : Nat :=
  if i < 0 then (max (i + n) 0).toNat else min i.toNat n

/-- Models the Python slice s[a:b]. -/
def pySlice (s : String) (a b : Int) : String :=
  let n := s.data.length
  let a2 := normIdx n a
  let b2 := normIdx n b
  ⟨(s.data.drop a2).take (b2 - a2)⟩

/-- Models the Python slice s[a:]. -/
def pyTail (s : String) (a : Int) : String :=
  pySlice s a (s.data.length : Int)

/-- Splits a character list on every occurrence of one character; Python str.split(c). -/
def splitChar (c : Char) : List Char → List (List Char)
  | [] => [[]]
  | x :: xs =>
    if x == c then [] :: splitChar c xs
    else
      match splitChar c xs with
      | r :: rs => (x :: r) :: rs
      | [] => [[x]]

/-- Models Python str.split(c) for a one-character separator. -/
def pySplitChar (c : Char) (s : String) : List String :=
  (splitChar c s.data).map fun cs => ⟨cs⟩

/-- Worker for whitespace splitting, carrying the reversed current token. -/
def splitWsGo (cur : List Char) : List Char → List (List Char)
  | [] => if cur.isEmpty then [] else [cur.reverse]
  | c :: cs =>
    if c.isWhitespace then
      if cur.isEmpty then splitWsGo [] cs else cur.reverse :: splitWsGo [] cs
    else splitWsGo (c :: cur) cs

/-- Models Python str.split() with no argument: whitespace runs, no empty tokens. -/
def pySplitWs (s : String) : List String :=
  (splitWsGo [] s.data).map fun cs => ⟨cs⟩

/-- Models Python str.startswith. -/
def pyStarts (s p : String) : Bool :=
  leadSeg p.data s.data

/-- Models Python str.endswith. -/
def pyEnds (s p : String) : Bool :=
  leadSeg p.data.reverse s.data.reverse

/-- Models Python str.rstrip(set): removes trailing characters in the set. -/
def pyRstripSet (set : List Char) (s : String) : String :=
  ⟨(s.data.reverse.dropWhile (fun c => set.contains c)).reverse⟩

/-- Models Python str.lstrip(set): removes leading characters in the set. -/
def pyLstripSet (set : List Char) (s : String) : String :=
  ⟨s.data.dropWhile (fun c => set.contains c)⟩

/-- Models Python str.rstrip() with no argument: removes trailing whitespace. -/
def pyRstripWs (s : String) : String :=
  ⟨(s.data.reverse.dropWhile Char.isWhitespace).reverse⟩

/-- Uppercases a string; Python str.upper on the ASCII range used here. -/
def pyUpper (s : String) : String :=
  ⟨s.data.map Char.toUpper⟩

/-- Worker for substring replacement, with fuel bounded by the input length. -/
def pyReplaceGo (old new : List Char) : Nat → List Char → List Char
  | _, [] => []
  | 0, s => s
  | fuel + 1, c :: cs =>
    if leadSeg old (c :: cs) && !old.isEmpty then
      new ++ pyReplaceGo old new fuel (cs.drop (old.length - 1))
    else c :: pyReplaceGo old new fuel cs

/-- Models Python str.replace for a non-empty pattern (the only use in the source). -/
def pyReplace (s old new : String) : String :=
  if old.data.isEmpty then s
  else ⟨pyReplaceGo old.data new.data s.data.length s.data⟩

/-! ### JSON values and Python dict operations -/

/-- JSON values as produced by parsing a query response (numbers restricted to
integers, which is all the embedded fragments compute with). -/
inductive Json where
  | null
  | bool (b : Bool)
  | num (n : Int)
  | str (s : String)
  | arr (elems : List Json)
  | obj (fields : List (String × Json))
deriving Repr

mutual

/-- Structural equality of JSON values, Python's == on parsed data. -/
def Json.beq : Json → Json → Bool
  | .null, .null => true
  | .bool a, .bool b => a == b
  | .num a, .num b => a == b
  | .str a, .str b => a == b
  | .arr as, .arr bs => Json.beqList as bs
  | .obj as, .obj bs => Json.beqFields as bs
  | _, _ => false

/-- Elementwise equality of JSON arrays. -/
def Json.beqList : List Json → List Json → Bool
  | [], [] => true
  | a :: as, b :: bs => Json.beq a b && Json.beqList as bs
  | _, _ => false

/-- Pairwise equality of JSON object field lists (order-sensitive, like the
association lists modelling insertion-ordered dicts). -/
def Json.beqFields : List (String × Json) → List (String × Json) → Bool
  | [], [] => true
  | (k, v) :: as, (k2, v2) :: bs => k == k2 && Json.beq v v2 && Json.beqFields as bs
  | _, _ => false

end

mutual

theorem Json.beq_refl : ∀ j : Json, Json.beq j j = true
  | .null => rfl
  | .bool b => by simp [Json.beq]
  | .num n => by simp [Json.beq]
  | .str s => by simp [Json.beq]
  | .arr as => by simp [Json.beq, Json.beqList_refl as]
  | .obj as => by simp [Json.beq, Json.beqFields_refl as]

theorem Json.beqList_refl : ∀ l : List Json, Json.beqList l l = true
  | [] => rfl
  | a :: as => by simp [Json.beqList, Json.beq_refl a, Json.beqList_refl as]

theorem Json.beqFields_refl : ∀ l : List (String × Json), Json.beqFields l l = true
  | [] => rfl
  | (k, v) :: as => by simp [Json.beqFields, Json.beq_refl v, Json.beqFields_refl as]

end

mutual

theorem Json.eq_of_beq : ∀ a b : Json, Json.beq a b = true → a = b
  | .null, .null, _ => rfl
  | .bool a, .bool b, h => by simpa [Json.beq] using h
  | .num a, .num b, h => by simpa [Json.beq] using h
  | .str a, .str b, h => by simpa [Json.beq] using h
  | .arr as, .arr bs, h => by
    have := Json.eqList_of_beq as bs (by simpa [Json.beq] using h)
    simp [this]
  | .obj as, .obj bs, h => by
    have := Json.eqFields_of_beq as bs (by simpa [Json.beq] using h)
    simp [this]
  | .null, .bool _, h => by simp [Json.beq] at h
  | .null, .num _, h => by simp [Json.beq] at h
  | .null, .str _, h => by simp [Json.beq] at h
  | .null, .arr _, h => by simp [Json.beq] at h
  | .null, .obj _, h => by simp [Json.beq] at h
  | .bool _, .null, h => by simp [Json.beq] at h
  | .bool _, .num _, h => by simp [Json.beq] at h
  | .bool _, .str _, h => by simp [Json.beq] at h
  | .bool _, .arr _, h => by simp [Json.beq] at h
  | .bool _, .obj _, h => by simp [Json.beq] at h
  | .num _, .null, h => by simp [Json.beq] at h
  | .num _, .bool _, h => by simp [Json.beq] at h
  | .num _, .str _, h => by simp [Json.beq] at h
  | .num _, .arr _, h => by simp [Json.beq] at h
  | .num _, .obj _, h => by simp [Json.beq] at h
  | .str _, .null, h => by simp [Json.beq] at h
  | .str _, .bool _, h => by simp [Json.beq] at h
  | .str _, .num _, h => by simp [Json.beq] at h
  | .str _, .arr _, h => by simp [Json.beq] at h
  | .str _, .obj _, h => by simp [Json.beq] at h
  | .arr _, .null, h => by simp [Json.beq] at h
  | .arr _, .bool _, h => by simp [Json.beq] at h
  | .arr _, .num _, h => by simp [Json.beq] at h
  | .arr _, .str _, h => by simp [Json.beq] at h
  | .arr _, .obj _, h => by simp [Json.beq] at h
  | .obj _, .null, h => by simp [Json.beq] at h
  | .obj _, .bool _, h => by simp [Json.beq] at h
  | .obj _, .num _, h => by simp [Json.beq] at h
  | .obj _, .str _, h => by simp [Json.beq] at h
  | .obj _, .arr _, h => by simp [Json.beq] at h

theorem Json.eqList_of_beq : ∀ a b : List Json, Json.beqList a b = true → a = b
  | [], [], _ => rfl
  | a :: as, b :: bs, h => by
    have h1 : Json.beq a b = true := by
      have := h; simp [Json.beqList] at this; exact this.1
    have h2 : Json.beqList as bs = true := by
      have := h; simp [Json.beqList] at this; exact this.2
    rw [Json.eq_of_beq a b h1, Json.eqList_of_beq as bs h2]
  | [], _ :: _, h => by simp [Json.beqList] at h
  | _ :: _, [], h => by simp [Json.beqList] at h

theorem Json.eqFields_of_beq :
    ∀ a b : List (String × Json), Json.beqFields a b = true → a = b
  | [], [], _ => rfl
  | (k, v) :: as, (k2, v2) :: bs, h => by
    have h0 : k = k2 := by
      have := h; simp [Json.beqFields] at this; exact this.1.1
    have h1 : Json.beq v v2 = true := by
      have := h; simp [Json.beqFields] at this; exact this.1.2
    have h2 : Json.beqFields as bs = true := by
      have := h; simp [Json.beqFields] at this; exact this.2
    rw [h0, Json.eq_of_beq v v2 h1, Json.eqFields_of_beq as bs h2]
  | [], _ :: _, h => by simp [Json.beqFields] at h
  | _ :: _, [], h => by simp [Json.beqFields] at h

end

instance : DecidableEq Json := fun a b =>
  if h : Json.beq a b = true then .isTrue (Json.eq_of_beq a b h)
  else .isFalse fun he => h (he ▸ Json.beq_refl a)

instance : BEq Json := ⟨Json.beq⟩

/-- First value stored under a key in a Python dict, modelled as an ordered
association list. -/
def dictGet (m : List (String × Json)) (k : String) : Option Json :=
  (m.find? fun p => p.1 = k).map (·.2)

/-- Python dict assignment d[k] = v: replaces the value in place when the key
exists, otherwise appends the pair at the end (insertion order). -/
def dictSet : List (String × Json) → String → Json → List (String × Json)
  | [], k, v => [(k, v)]
  | (k1, v1) :: t, k, v => if k1 = k then (k, v) :: t else (k1, v1) :: dictSet t k v

/-- Generic ordered association lookup for Python dicts keyed by arbitrary values. -/
def assocGet {α : Type} [DecidableEq α] {β : Type} (m : List (α × β)) (k : α) : Option β :=
  (m.find? fun p => p.1 = k).map (·.2)

/-- Generic ordered association assignment with Python dict update semantics. -/
def assocSet {α : Type} [DecidableEq α] {β : Type} : List (α × β) → α → β → List (α × β)
  | [], k, v => [(k, v)]
  | (k1, v1) :: t, k, v => if k1 = k then (k, v) :: t else (k1, v1) :: assocSet t k v

/-- Models the Python membership test `k in o`: key lookup on dicts, substring
test on strings, element membership on lists, a TypeError elsewhere. -/
def pyContains (o : Json) (k : String) : Except PyErr Bool :=
  match o with
  | .obj fields => .ok (fields.any fun p => p.1 = k)
  | .str s => .ok ((findSub k.data s.data).isSome)
  | .arr es => .ok (es.any fun e => e = .str k)
  | _ => .error .typeError

/-- Models the Python subscript o[k] with a string key: dict lookup raising
KeyError when absent, TypeError on any non-dict value. -/
def pyGetKey (o : Json) (k : String) : Except PyErr Json :=
  match o with
  | .obj fields =>
    match dictGet fields k with
    | some v => .ok v
    | none => .error .keyError
  | _ => .error .typeError

/-- Subscript that additionally requires a string value, as needed by the
string concatenations building the composite edge id. -/
def pyGetKeyStr (o : Json) (k : String) : Except PyErr String := do
  match ← pyGetKey o k with
  | .str s => .ok s
  | _ => .error .typeError

/-- Models Python dict assignment on a Json object value. -/
def pySetKey (o : Json) (k : String) (v : Json) : Json :=
  match o with
  | .obj fields => .obj (dictSet fields k v)
  | _ => o

/-- Python truthiness of a value, as used by the reverse-edge check. -/
def pyTruthy (o : Json) : Bool :=
  match o with
  | .null => false
  | .bool b => b
  | .num n => n != 0
  | .str s => !s.data.isEmpty
  | .arr es => !es.isEmpty
  | .obj fs => !fs.isEmpty

/-! ### Query-output decoder (parseQueryOutput and its helpers)

The elements of vertex/edge set payloads are Python dict objects that
parseQueryOutput mutates in place and stores by reference in its result.
That reference structure is modelled by a heap: a list of Json values
indexed by addresses, with payload elements given as addresses. -/

/-- An edge-type object of the cached schema as seen by the decoder: the
fields read by getEdgeType / isDirected / getReverseEdge. -/
structure EdgeRec where
  name : String
  isDirected : Bool
  config : List (String × Json)
  statement : Option String
deriving DecidableEq, Repr

/-- Models getEdgeType restricted to the cached EdgeTypes list: first object
whose Name equals the requested type, none when absent (the source then
returns an empty dict whose field reads raise KeyError). -/
def getEdgeTypeRec (ets : List EdgeRec) (eType : Json) : Option EdgeRec :=
  ets.find? fun et => Json.str et.name = eType

/-- Models isDirected: the IsDirected field, KeyError when the type is absent. -/
def isDirectedJ (ets : List EdgeRec) (eType : Json) : Except PyErr Bool :=
  match getEdgeTypeRec ets eType with
  | some et => .ok et.isDirected
  | none => .error .keyError

/-- Models getReverseEdge: None for undirected types, otherwise the
REVERSE_EDGE entry of the Config dict when present. -/
def getReverseEdgeJ (ets : List EdgeRec) (eType : Json) : Except PyErr Json := do
  let d ← isDirectedJ ets eType
  if !d then .ok .null
  else
    match getEdgeTypeRec ets eType with
    | some et =>
      match dictGet et.config "REVERSE_EDGE" with
      | some v => .ok v
      | none => .ok .null
    | none => .error .keyError

/-- One output-field payload: a non-list value, or a list whose elements are
heap addresses of the element records. -/
inductive HPayload where
  | scalar (value : Json)
  | elems (addrs : List Nat)
deriving DecidableEq, Repr

/-- One result frame: an ordered mapping from output label to payload. -/
abbrev Frame := List (String × HPayload)

/-- The decoder's working state: the heap of element records plus the vertex
map, edge map and other-output list built by parseQueryOutput. -/
structure DecodeState where
  heap : List Json
  vs : List (Json × List (Json × Nat))
  es : List (Json × List (Json × Nat))
  ou : List (String × HPayload)
deriving DecidableEq, Repr

/-- Dereferences a heap address. -/
def heapAtE (heap : List Json) (a : Nat) : Except PyErr Json :=
  match heap.get? a with
  | some j => .ok j
  | none => .error .indexError

/-- Models attCopy: copies every attribute of src into trg (same keys
overwritten, others kept).  Both records must carry a dict under
"attributes", else the Python code raises. -/
def attCopy (src trg : Json) : Except PyErr Json := do
  let srca ← pyGetKey src "attributes"
  let trga ← pyGetKey trg "attributes"
  match srca, trga with
  | .obj sa, .obj ta =>
    .ok (pySetKey trg "attributes" (.obj (sa.foldl (fun m p => dictSet m p.1 p.2) ta)))
  | _, _ => .error .typeError

/-- Second half of addOccurrences: appends the label to x_sources,
initializing it to a one-element list when absent; a non-list value has no
append method and raises. -/
def addSources (fields : List (String × Json)) (src : String) : Except PyErr Json :=
  match dictGet fields "x_sources" with
  | some (.arr l) => .ok (.obj (dictSet fields "x_sources" (.arr (l ++ [.str src]))))
  | some _ => .error .attributeError
  | none => .ok (.obj (dictSet fields "x_sources" (.arr [.str src])))

/-- Models addOccurrences: increments x_occurrences (initializing to 1; a
Python bool counts as its integer value) and then appends the label to
x_sources.  The argument is a dict in every reachable call; other shapes
raise. -/
def addOccurrences (obj : Json) (src : String) : Except PyErr Json :=
  match obj with
  | .obj fields =>
    match dictGet fields "x_occurrences" with
    | some (.num n) => addSources (dictSet fields "x_occurrences" (.num (n + 1))) src
    | some (.bool b) => addSources (dictSet fields "x_occurrences" (.num ((cond b 1 0) + 1))) src
    | some _ => .error .typeError
    | none => addSources (dictSet fields "x_occurrences" (.num 1)) src
  | _ => .error .typeError

/-- Processes one element of a list payload, mirroring the body of the inner
loop of parseQueryOutput: vertex branch, edge branch, or a verbatim append
of the whole payload to the other-output list. -/
def processElement (ets : List EdgeRec) (lbl : String) (payload : HPayload)
    (st : DecodeState) (a : Nat) : Except PyErr DecodeState := do
  let o3 ← heapAtE st.heap a
  if ← pyContains o3 "v_type" then do
    let vType ← pyGetKey o3 "v_type"
    let vs1 := if (assocGet st.vs vType).isSome then st.vs else assocSet st.vs vType []
    let vtm := (assocGet vs1 vType).getD []
    let vId ← pyGetKey o3 "v_id"
    match assocGet vtm vId with
    | some a2 => do
      let tmp ← heapAtE st.heap a2
      let tmp2 ← attCopy o3 tmp
      let tmp3 ← addOccurrences tmp2 lbl
      .ok { st with heap := st.heap.set a2 tmp3, vs := vs1 }
    | none => do
      let o3b ← addOccurrences o3 lbl
      .ok { st with heap := st.heap.set a o3b,
                    vs := assocSet vs1 vType (assocSet vtm vId a) }
  else if ← pyContains o3 "e_type" then do
    let eType ← pyGetKey o3 "e_type"
    let es1 := if (assocGet st.es eType).isSome then st.es else assocSet st.es eType []
    let etm := (assocGet es1 eType).getD []
    let ft ← pyGetKeyStr o3 "from_type"
    let fi ← pyGetKeyStr o3 "from_id"
    let tt2 ← pyGetKeyStr o3 "to_type"
    let ti ← pyGetKeyStr o3 "to_id"
    let eId := ft ++ "(" ++ fi ++ ")->" ++ tt2 ++ "(" ++ ti ++ ")"
    let o3a := pySetKey o3 "e_id" (.str eId)
    let heap1 := st.heap.set a o3a
    let dir ← isDirectedJ ets eType
    let rev ← if dir then getReverseEdgeJ ets eType else pure .null
    let attach := dir && pyTruthy rev
    let o3b := if attach then pySetKey o3a "reverse_edge" rev else o3a
    let heap2 := if attach then heap1.set a o3b else heap1
    match assocGet etm (Json.str eId) with
    | some a2 => do
      let tmp ← heapAtE heap2 a2
      let tmp2 ← attCopy o3b tmp
      let tmp3 ← addOccurrences tmp2 lbl
      .ok { st with heap := heap2.set a2 tmp3, es := es1 }
    | none => do
      let o3c ← addOccurrences o3b lbl
      .ok { st with heap := heap2.set a o3c,
                    es := assocSet es1 eType (assocSet etm (Json.str eId) a) }
  else
    .ok { st with ou := st.ou ++ [(lbl, payload)] }

/-- Processes one (label, payload) pair of a frame: list payloads whose first
element is a dict are walked elementwise, everything else goes verbatim to
the other-output list. -/
def processPayload (ets : List EdgeRec) (st : DecodeState) (lp : String × HPayload) :
    Except PyErr DecodeState :=
  match lp.2 with
  | .elems (a0 :: rest) =>
    match heapAtE st.heap a0 with
    | .ok (.obj _) => (a0 :: rest).foldlM (fun s a => processElement ets lp.1 lp.2 s a) st
    | .ok _ => .ok { st with ou := st.ou ++ [(lp.1, lp.2)] }
    | .error e => .error e
  | _ => .ok { st with ou := st.ou ++ [(lp.1, lp.2)] }

/-- Runs the decoding loops of parseQueryOutput over all frames, starting from
the given heap of element records. -/
def decodeRun (ets : List EdgeRec) (frames : List Frame) (heap : List Json) :
    Except PyErr DecodeState :=
  frames.foldlM (fun st fr => fr.foldlM (processPayload ets) st) ⟨heap, [], [], []⟩

/-- Reads a heap cell as a value (total; the decoder only stores valid addresses). -/
def heapVal (heap : List Json) (a : Nat) : Json :=
  (heap.get? a).getD .null

/-- Renders a payload as the value a caller observes after decoding. -/
def renderPayload (heap : List Json) : HPayload → Json
  | .scalar v => v
  | .elems addrs => .arr (addrs.map (heapVal heap))

/-- The dictionary parseQueryOutput returns: vertices and edges as
type-then-identity keyed mappings, and (unless graphOnly) the other output. -/
structure PQOResult where
  vertices : List (Json × List (Json × Json))
  edges : List (Json × List (Json × Json))
  output : Option (List (String × Json))
deriving DecidableEq, Repr

/-- Reads the final decoder state back through the final heap, yielding the
caller-visible result of parseQueryOutput. -/
def renderState (graphOnly : Bool) (st : DecodeState) : PQOResult :=
  { vertices := st.vs.map fun p => (p.1, p.2.map fun q => (q.1, heapVal st.heap q.2))
    edges := st.es.map fun p => (p.1, p.2.map fun q => (q.1, heapVal st.heap q.2))
    output :=
      if graphOnly then none
      else some (st.ou.map fun p => (p.1, renderPayload st.heap p.2)) }

/-- Models parseQueryOutput: decode all frames, then view the result. -/
def parseQueryOutput (ets : List EdgeRec) (graphOnly : Bool) (frames : List Frame)
    (heap : List Json) : Except PyErr PQOResult :=
  (decodeRun ets frames heap).map (renderState graphOnly)

/-! ### Observation vocabulary for the deduplication claims

These definitions restate, over the embedded input, the quantities the
specification's claims speak about: the stream of element occurrences, the
occurrences matching a given vertex identity, and the lookup of a decoded
canonical entity. -/

/-- Addresses of a payload's element records. -/
def payloadAddrs : HPayload → List Nat
  | .scalar _ => []
  | .elems l => l

/-- The (label, address) occurrences of one frame, in encounter order. -/
def frameOcc (fr : Frame) : List (String × Nat) :=
  fr.flatMap fun lp => (payloadAddrs lp.2).map fun a => (lp.1, a)

/-- The (label, address) occurrence stream of all frames, in encounter order. -/
def occList (frames : List Frame) : List (String × Nat) :=
  frames.flatMap frameOcc

/-- Total read of a dict field (null when absent or not a dict). -/
def keyOf (j : Json) (k : String) : Json :=
  match j with
  | .obj f => (dictGet f k).getD .null
  | _ => .null

/-- A clean vertex element record: a dict carrying v_type and v_id, a dict
under attributes, and none of the bookkeeping keys the decoder adds. -/
def cleanVertexRec (j : Json) : Bool :=
  match j with
  | .obj fields =>
    (dictGet fields "v_type").isSome && (dictGet fields "v_id").isSome &&
    (match dictGet fields "attributes" with
     | some (.obj _) => true
     | _ => false) &&
    (dictGet fields "x_occurrences").isNone && (dictGet fields "x_sources").isNone
  | _ => false

/-- Is a payload a non-empty element list? -/
def payloadShapeOk : HPayload → Bool
  | .elems (_ :: _) => true
  | _ => false

/-- A vertex-set-only input: every payload is a non-empty list of distinct
clean vertex records. -/
def cleanVertexInput (heap : List Json) (frames : List Frame) : Prop :=
  (∀ fr ∈ frames, ∀ lp ∈ fr,
    payloadShapeOk lp.2 = true ∧
    ∀ a ∈ payloadAddrs lp.2, a < heap.length ∧ cleanVertexRec (heapVal heap a)) ∧
  ((occList frames).map Prod.snd).Nodup

/-- Does an occurrence carry the given vertex type and id (as read off the
input heap)? -/
def vMatch (heap0 : List Json) (t i : Json) (la : String × Nat) : Bool :=
  decide (keyOf (heapVal heap0 la.2) "v_type" = t) &&
  decide (keyOf (heapVal heap0 la.2) "v_id" = i)

/-- The occurrences of identity (t, i) within an occurrence stream. -/
def vMatches (heap0 : List Json) (P : List (String × Nat)) (t i : Json) :
    List (String × Nat) :=
  P.filter (vMatch heap0 t i)

instance cleanVertexInputDec (heap : List Json) (frames : List Frame) :
    Decidable (cleanVertexInput heap frames) := by
  unfold cleanVertexInput
  infer_instance

/-- Formalizes the claim's measure: the number of frames in which the given
vertex identity appears, reading the input heap. -/
def framesContaining (heap0 : List Json) (frames : List Frame) (t i : Json) : Nat :=
  (frames.filter fun fr => (frameOcc fr).any (vMatch heap0 t i)).length

/-- Address stored by the decoder for vertex type t and id i. -/
def lookup2 (vs : List (Json × List (Json × Nat))) (t i : Json) : Option Nat :=
  (assocGet vs t).bind fun m => assocGet m i

/-- The canonical entity the rendered result holds for vertex type t, id i. -/
def vertexEntry (r : PQOResult) (t i : Json) : Option Json :=
  (assocGet r.vertices t).bind fun m => assocGet m i

/-! ### Schema text parser (_getSchemaLs) and schema assembler (getSchema)

The schema is a dict whose sections may be absent (presence matters to both
_getSchemaLs and getSchema), modelled as a record of optional lists.  The
gsql network calls are boundary inputs: the full ls text and the SHOW QUERY
lookup arrive as parameters. -/

/-- A vertex-type object: the Name matched by the parser plus the Statement
it attaches (the structured base fetch supplies further fields the parser
never reads). -/
structure VertexRec where
  name : String
  statement : Option String
deriving DecidableEq, Repr

/-- An index record as built by the Indexes block. -/
structure IndexRec where
  name : String
  vertex : String
  attr : String
deriving DecidableEq, Repr

/-- A loading-job record as built by the loading-job block. -/
structure JobRec where
  name : String
  statement : String
deriving DecidableEq, Repr

/-- A query object: Name plus the Statement and Deprecated flag the Queries
block fills in. -/
structure QueryRec where
  name : String
  statement : Option String
  deprecated : Option Bool
deriving DecidableEq, Repr

/-- A user-defined-type object fetched by _getUDTs, whose Statement the UDT
block fills in. -/
structure UdtRec where
  name : String
  fields : String
  statement : Option String
deriving DecidableEq, Repr

/-- A data-source record as built by the Data Sources block; its Statement is
the two-element declaration list the source synthesizes. -/
structure DataSourceRec where
  name : String
  dstype : String
  details : String
  statement : List String
deriving DecidableEq, Repr

/-- A graph record as built by the graph block. -/
structure GraphRec where
  name : String
  statement : String
  text : String
deriving DecidableEq, Repr

/-- A user record (populated by _getUsers, outside the parser core). -/
structure UserRec where
  name : String
  roles : List String
deriving DecidableEq, Repr

/-- A proxy-group record (populated by _getGroups, outside the parser core). -/
structure GroupRec where
  name : String
  roles : List String
  rule : String
deriving DecidableEq, Repr

/-- The schema dict: each section is absent (none) or a list of objects. -/
structure Schema where
  vertexTypes : Option (List VertexRec)
  edgeTypes : Option (List EdgeRec)
  indexes : Option (List IndexRec)
  queries : Option (List QueryRec)
  loadingJobs : Option (List JobRec)
  dataSources : Option (List DataSourceRec)
  graphs : Option (List GraphRec)
  udts : Option (List UdtRec)
  users : Option (List UserRec)
  groups : Option (List GroupRec)
deriving DecidableEq, Repr

/-- The empty schema dict (Python falsy). -/
def Schema.empty : Schema :=
  ⟨none, none, none, none, none, none, none, none, none, none⟩

/-- Updates the first list element satisfying the predicate, like the
for/break search-and-mutate loops of the source. -/
def updateFirst {α : Type} (p : α → Bool) (f : α → α) : List α → List α
  | [] => []
  | x :: xs => if p x then f x :: xs else x :: updateFirst p f xs

/-- Boundary inputs of _getSchemaLs: the SHOW QUERY lookup and the graph name. -/
structure LsCtx where
  showQuery : String → String
  graphname : String

/-- All start positions of the needle in the haystack. -/
def subPositions (needle : List Char) : List Char → List Nat
  | [] => if leadSeg needle [] then [0] else []
  | c :: t =>
    (if leadSeg needle (c :: t) then [0] else []) ++ (subPositions needle t).map (· + 1)

/-- Models re.sub of the qpatt regex (one or more characters followed by
CREATE, greedy): replaces everything up to and including the last CREATE
occurrence that has at least one character before it. -/
def qpattSub (s : String) : String :=
  match ((subPositions "CREATE".data s.data).filter (1 ≤ ·)).getLast? with
  | some p => ⟨"CREATE".data ++ s.data.drop (p + 6)⟩
  | none => s

/-- Parses one line of the Indexes block: split the label-stripped line on
colons; before the first colon the name, in the second segment the vertex
type up to the first parenthesis and the attribute inside the parentheses.
A line with no colon raises IndexError. -/
def indexEntryOfLine (l : String) : Except PyErr IndexRec :=
  match pySplitChar ':' (pyTail l 4) with
  | l0 :: l21 :: _ =>
    .ok ⟨l0, pySlice l21 0 (pyFind l21 "("),
         pySlice l21 (pyFind l21 "(" + 1) (pyFind l21 ")")⟩
  | _ => .error .indexError

/-- The Indexes block scan: one record per non-blank line, stopping at the
first blank line; reading past the end raises IndexError.  The loop always
advances, so the fuel passed by the dispatcher (one more than the number of
lines) never runs out. -/
def indexLoop (res : List String) : Nat → Nat → List IndexRec →
    List IndexRec × Nat × Option PyErr
  | 0, i, acc => (acc, i, some .outOfFuel)
  | fuel + 1, i, acc =>
    if h : i < res.length then
      let l := res.get ⟨i, h⟩
      if l = "" then (acc, i, none)
      else
        match indexEntryOfLine l with
        | .error e => (acc, i, some e)
        | .ok r => indexLoop res fuel (i + 1) (acc ++ [r])
    else (acc, i, some .indexError)

/-- The loading-job body scan: accumulate label-stripped lines until one
starts a new CREATE block or the Queries section. -/
def jobLoop (res : List String) : Nat → Nat → String → String × Nat × Option PyErr
  | 0, i, txt => (txt, i, some .outOfFuel)
  | fuel + 1, i, txt =>
    if h : i < res.length then
      let l := res.get ⟨i, h⟩
      if pyStarts l "  - CREATE" || pyStarts l "Queries" then (txt, i, none)
      else jobLoop res fuel (i + 1) (txt ++ pyTail l 4 ++ "\n")
    else (txt, i, some .indexError)

/-- The Queries block scan: per line, the name up to the first parenthesis
and a deprecation marker; the declarative text comes from the SHOW QUERY
lookup, right-stripped and rewritten by the qpatt substitution; merged into
the query list by name or appended. -/
def queryLoop (showQuery : String → String) (res : List String) :
    Nat → Nat → List QueryRec → List QueryRec × Nat × Option PyErr
  | 0, i, qs => (qs, i, some .outOfFuel)
  | fuel + 1, i, qs =>
    if h : i < res.length then
      let l := res.get ⟨i, h⟩
      if l = "" then (qs, i, none)
      else
        let qName := pySlice l 4 (pyFind l "(")
        let dep := pyEnds l "(deprecated)"
        let txt := qpattSub (pyRstripSet [' ', '\n'] (showQuery qName))
        let qs2 :=
          if qs.any (fun q => q.name = qName) then
            updateFirst (fun q => q.name = qName)
              (fun q => { q with statement := some txt, deprecated := some dep }) qs
          else qs ++ [⟨qName, some txt, some dep⟩]
        queryLoop showQuery res fuel (i + 1) qs2
    else (qs, i, some .indexError)

/-- The UDT block scan: name before the first parenthesis (right-stripped),
statement synthesized from the field list inside the parentheses; looking up
the UDTs section raises KeyError when it was never fetched. -/
def udtLoop (res : List String) : Nat → Nat → Option (List UdtRec) →
    Option (List UdtRec) × Nat × Option PyErr
  | 0, i, udts => (udts, i, some .outOfFuel)
  | fuel + 1, i, udts =>
    if h : i < res.length then
      let l := res.get ⟨i, h⟩
      if l = "" then (udts, i, none)
      else
        let udtName := pyRstripWs (pySlice l 4 (pyFind l "("))
        let stmt := "TYPEDEF TUPLE <" ++ pySlice l (pyFind l "(" + 1) (-1) ++ "> " ++ udtName
        match udts with
        | none => (none, i, some .keyError)
        | some us =>
          let us2 := updateFirst (fun u => u.name = udtName)
            (fun u => { u with statement := some stmt }) us
          udtLoop res fuel (i + 1) (some us2)
    else (udts, i, some .indexError)

/-- The Data Sources block scan: whitespace-split the label-stripped line
into kind, name and connection details, and synthesize the CREATE and GRANT
declarations. -/
def dsLoop (graphname : String) (res : List String) : Nat → Nat → List DataSourceRec →
    List DataSourceRec × Nat × Option PyErr
  | 0, i, dss => (dss, i, some .outOfFuel)
  | fuel + 1, i, dss =>
    if h : i < res.length then
      let l := res.get ⟨i, h⟩
      if l = "" then (dss, i, none)
      else
        match pySplitWs (pyTail l 4) with
        | t0 :: t1 :: t2 :: _ =>
          let stmt1 := "CREATE DATA_SOURCE " ++ pyUpper t0 ++ " " ++ t1 ++ " = \"" ++
            pyReplace (pyRstripSet [')'] (pyLstripSet ['('] t2)) "\"" "'" ++ "\""
          let stmt2 := "GRANT DATA_SOURCE " ++ t1 ++ " TO GRAPH " ++ graphname
          dsLoop graphname res fuel (i + 1) (dss ++ [⟨t1, t0, t2, [stmt1, stmt2]⟩])
        | _ => (dss, i, some .indexError)
    else (dss, i, some .indexError)

/-- One iteration step of the _getSchemaLs line classifier: returns the
mutated schema, the cursor position at the end of the branch (the outer
loop then advances it by one), and a raised error if any. -/
def lsStep (ctx : LsCtx) (res : List String) (i : Nat) (l : String) (st : Schema) :
    Schema × Nat × Option PyErr :=
  if pyStarts l "  - VERTEX" then
    match st.vertexTypes with
    | none => (st, i, some .keyError)
    | some vts =>
      let vtName := pySlice l 11 (pyFind l "(")
      ({ st with vertexTypes := some (updateFirst (fun v => v.name = vtName)
          (fun v => { v with statement := some ("CREATE " ++ pyTail l 4) }) vts) }, i, none)
  else if pyStarts l "  - DIRECTED" || pyStarts l "  - UNDIRECTED" then
    match st.edgeTypes with
    | none => (st, i, some .keyError)
    | some ets =>
      let etName := pySlice l (pyFind l "EDGE" + 5) (pyFind l "(")
      ({ st with edgeTypes := some (updateFirst (fun e => e.name = etName)
          (fun e => { e with statement := some ("CREATE " ++ pyTail l 4) }) ets) }, i, none)
  else if pyStarts l "Indexes:" then
    match st.indexes with
    | none => (st, i, some .keyError)
    | some ixs =>
      match indexLoop res (res.length + 1) (i + 1) ixs with
      | (ixs2, i2, e) => ({ st with indexes := some ixs2 }, i2, e)
  else if pyStarts l "  - CREATE LOADING JOB" then
    let tmp := pyTail l 4
    match (pySplitChar ' ' tmp).get? 3 with
    | none => (st, i, some .indexError)
    | some jobName =>
      match jobLoop res (res.length + 1) (i + 1) (tmp ++ "\n") with
      | (_, _, some e) => (st, i, some e)
      | (txt, i2, none) =>
        match st.loadingJobs with
        | none => (st, i, some .keyError)
        | some js =>
          let js2 := js ++ [⟨jobName, pyRstripSet [' ', '\n'] txt⟩]
          ({ st with loadingJobs := some js2 }, i2 - 1, none)
  else if pyStarts l "Queries:" then
    match st.queries with
    | none => (st, i, some .keyError)
    | some qs =>
      match queryLoop ctx.showQuery res (res.length + 1) (i + 1) qs with
      | (qs2, i2, e) => ({ st with queries := some qs2 }, i2, e)
  else if pyStarts l "User defined tuples:" then
    match udtLoop res (res.length + 1) (i + 1) st.udts with
    | (udts2, i2, e) => ({ st with udts := udts2 }, i2, e)
  else if pyStarts l "Data Sources:" then
    match st.dataSources with
    | none => (st, i, some .keyError)
    | some dss =>
      match dsLoop ctx.graphname res (res.length + 1) (i + 1) dss with
      | (dss2, i2, e) => ({ st with dataSources := some dss2 }, i2, e)
  else if pyStarts l "  - Graph" then
    match st.graphs with
    | none => (st, i, some .keyError)
    | some gs =>
      let gName := pySlice l 10 (pyFind l "(")
      ({ st with graphs := some (gs ++ [⟨gName,
          "CREATE GRAPH " ++ pyReplace (pyReplace (pyTail l 10) ":v" "") ":e" "",
          pyTail l 10⟩]) }, i, none)
  else (st, i, none)

/-- The outer while loop of _getSchemaLs over the split lines.  Every branch
moves the cursor forward by at least one line per iteration, so a fuel of
one more than the number of lines always suffices. -/
def lsLoop (ctx : LsCtx) (res : List String) : Nat → Nat → Schema → Schema × Option PyErr
  | 0, _, st => (st, some .outOfFuel)
  | fuel + 1, i, st =>
    if h : i < res.length then
      match lsStep ctx res i (res.get ⟨i, h⟩) st with
      | (st2, _, some e) => (st2, some e)
      | (st2, i2, none) => lsLoop ctx res fuel (i2 + 1) st2
    else (st, none)

/-- Models _getSchemaLs: seed the seven section lists when absent, split the
ls output into lines, and run the classifier loop. -/
def getSchemaLs (ctx : LsCtx) (lsText : String) (s : Schema) : Schema × Option PyErr :=
  let s2 : Schema :=
    { s with
      vertexTypes := some (s.vertexTypes.getD [])
      edgeTypes := some (s.edgeTypes.getD [])
      indexes := some (s.indexes.getD [])
      queries := some (s.queries.getD [])
      loadingJobs := some (s.loadingJobs.getD [])
      dataSources := some (s.dataSources.getD [])
      graphs := some (s.graphs.getD []) }
  let res := pySplitChar '\n' lsText
  lsLoop ctx res (res.length + 1) 0 s2

/-- Models getSchema: fetch the base snapshot when the cache is empty or a
refresh is forced, then (when full) run each collector whose section is
missing or on force.  The network-backed collectors _getUDTs, _getQueries,
_getUsers and _getGroups are boundary steps supplied as functions; the
text parser _getSchemaLs is the embedded one. -/
def getSchema (fetchBase : Schema) (udtStep : Schema → Schema × Option PyErr)
    (ctx : LsCtx) (lsText : String)
    (queriesStep usersStep groupsStep : Schema → Schema × Option PyErr)
    (full force : Bool) (s : Schema) : Schema × Option PyErr :=
  let s0 := if s = Schema.empty || force then fetchBase else s
  if !full then (s0, none)
  else
    match (if s0.udts.isNone || force then udtStep s0 else (s0, none)) with
    | (s1, some e) => (s1, some e)
    | (s1, none) =>
      match
        (if s1.queries.isNone || force then
          match getSchemaLs ctx lsText s1 with
          | (sa, some e) => (sa, some e)
          | (sa, none) => queriesStep sa
        else (s1, none)) with
      | (s2, some e) => (s2, some e)
      | (s2, none) =>
        match (if s2.users.isNone || force then usersStep s2 else (s2, none)) with
        | (s3, some e) => (s3, some e)
        | (s3, none) =>
          match (if s3.groups.isNone || force then groupsStep s3 else (s3, none)) with
          | (s4, some e) => (s4, some e)
          | (s4, none) => (s4, none)

example : pyFind "  - idx1:Person(name)" "(" = 15 := by decide
example : pySlice "Person(name)" 0 6 = "Person" := by decide
example : pySlice "abcdef" 2 (-1) = "cde" := by decide
example : pySplitChar ':' "idx1:Person(name)" = ["idx1", "Person(name)"] := by decide
example : pySplitWs "  a  bb c " = ["a", "bb", "c"] := by decide
example : pyReplace "g(a:v,b:e)" ":v" "" = "g(a,b:e)" := by decide

/-! ### Dictionary and association-list lemmas -/

theorem dictGet_cons (k1 : String) (v1 : Json) (t : List (String × Json)) (k2 : String) :
    dictGet ((k1, v1) :: t) k2 = if k1 = k2 then some v1 else dictGet t k2 := by
  by_cases h : k1 = k2 <;> simp [dictGet, List.find?, h]

theorem assocGet_cons {α β : Type} [DecidableEq α] (k1 : α) (v1 : β) (t : List (α × β))
    (k2 : α) : assocGet ((k1, v1) :: t) k2 = if k1 = k2 then some v1 else assocGet t k2 := by
  by_cases h : k1 = k2 <;> simp [assocGet, List.find?, h]

theorem dictGet_dictSet (m : List (String × Json)) (k : String) (v : Json) (k2 : String) :
    dictGet (dictSet m k v) k2 = if k2 = k then some v else dictGet m k2 := by
  induction m with
  | nil =>
    by_cases h : k2 = k
    · subst h; simp [dictSet, dictGet_cons, dictGet]
    · simp [dictSet, dictGet_cons, h, Ne.symm h, dictGet]
  | cons p t ih =>
    obtain ⟨k1, v1⟩ := p
    by_cases h1 : k1 = k
    · subst h1
      by_cases h : k2 = k1
      · subst h; simp [dictSet, dictGet_cons]
      · simp [dictSet, dictGet_cons, h, Ne.symm h]
    · by_cases h : k2 = k
      · subst h
        simp [dictSet, dictGet_cons, h1, Ne.symm h1, ih]
      · by_cases h2 : k1 = k2
        · subst h2
          simp [dictSet, dictGet_cons, h1, h]
        · simp [dictSet, dictGet_cons, h1, h2, h, ih]

theorem assocGet_assocSet {α β : Type} [DecidableEq α] (m : List (α × β)) (k : α) (v : β)
    (k2 : α) : assocGet (assocSet m k v) k2 = if k2 = k then some v else assocGet m k2 := by
  induction m with
  | nil =>
    by_cases h : k2 = k
    · subst h; simp [assocSet, assocGet_cons, assocGet]
    · simp [assocSet, assocGet_cons, h, Ne.symm h, assocGet]
  | cons p t ih =>
    obtain ⟨k1, v1⟩ := p
    by_cases h1 : k1 = k
    · subst h1
      by_cases h : k2 = k1
      · subst h; simp [assocSet, assocGet_cons]
      · simp [assocSet, assocGet_cons, h, Ne.symm h]
    · by_cases h : k2 = k
      · subst h
        simp [assocSet, assocGet_cons, h1, Ne.symm h1, ih]
      · by_cases h2 : k1 = k2
        · subst h2
          simp [assocSet, assocGet_cons, h1, h]
        · simp [assocSet, assocGet_cons, h1, h2, h, ih]

/-! ### Heap and record shape lemmas -/

theorem exBind_ok {e a b : Type} (x : a) (f : a → Except e b) :
    (Except.ok x >>= f : Except e b) = f x := rfl

theorem exBind_err {e a b : Type} (x : e) (f : a → Except e b) :
    ((Except.error x : Except e a) >>= f) = .error x := rfl

theorem heapVal_set_self (heap : List Json) (a : Nat) (v : Json) (h : a < heap.length) :
    heapVal (heap.set a v) a = v := by
  unfold heapVal
  rw [List.get?_set_eq_of_lt v h]
  rfl

theorem heapVal_set_ne (heap : List Json) (a b : Nat) (v : Json) (h : a ≠ b) :
    heapVal (heap.set a v) b = heapVal heap b := by
  unfold heapVal
  rw [List.get?_set_ne v heap h]

theorem heapAtE_lt (heap : List Json) (a : Nat) (h : a < heap.length) :
    heapAtE heap a = .ok (heapVal heap a) := by
  unfold heapAtE heapVal
  match hg : heap.get? a with
  | some j => simp
  | none =>
    rw [List.get?_eq_none] at hg
    omega

theorem dictGet_isSome_any (fields : List (String × Json)) (k : String) :
    (dictGet fields k).isSome = fields.any (fun p => p.1 = k) := by
  induction fields with
  | nil => simp [dictGet]
  | cons p t ih =>
    obtain ⟨k1, v1⟩ := p
    by_cases h : k1 = k <;> simp [dictGet_cons, h, ih]

theorem addOccurrences_fresh (fields : List (String × Json)) (lbl : String)
    (h1 : dictGet fields "x_occurrences" = none) (h2 : dictGet fields "x_sources" = none) :
    addOccurrences (.obj fields) lbl
      = .ok (.obj (dictSet (dictSet fields "x_occurrences" (.num 1)) "x_sources"
          (.arr [.str lbl]))) := by
  simp only [addOccurrences, h1, addSources]
  rw [dictGet_dictSet]
  simp [h2]

theorem addOccurrences_incr (fields : List (String × Json)) (lbl : String) (n : Int)
    (l : List Json)
    (h1 : dictGet fields "x_occurrences" = some (.num n))
    (h2 : dictGet fields "x_sources" = some (.arr l)) :
    addOccurrences (.obj fields) lbl
      = .ok (.obj (dictSet (dictSet fields "x_occurrences" (.num (n + 1))) "x_sources"
          (.arr (l ++ [.str lbl])))) := by
  simp only [addOccurrences, h1, addSources]
  rw [dictGet_dictSet]
  simp [h2]

theorem attCopy_shape (sf tf sa ta : List (String × Json))
    (hs : dictGet sf "attributes" = some (.obj sa))
    (ht : dictGet tf "attributes" = some (.obj ta)) :
    attCopy (.obj sf) (.obj tf)
      = .ok (.obj (dictSet tf "attributes"
          (.obj (sa.foldl (fun m p => dictSet m p.1 p.2) ta)))) := by
  simp [attCopy, pyGetKey, hs, ht, pySetKey, exBind_ok]

theorem cleanVertexRec_spec (j : Json) (h : cleanVertexRec j = true) :
    ∃ fields t i af, j = .obj fields ∧
      dictGet fields "v_type" = some t ∧ dictGet fields "v_id" = some i ∧
      dictGet fields "attributes" = some (.obj af) ∧
      dictGet fields "x_occurrences" = none ∧ dictGet fields "x_sources" = none := by
  match j with
  | .obj fields =>
    simp only [cleanVertexRec, Bool.and_eq_true] at h
    obtain ⟨⟨⟨⟨hvt, hvi⟩, hat⟩, ho⟩, hs⟩ := h
    obtain ⟨t, ht⟩ := Option.isSome_iff_exists.mp hvt
    obtain ⟨i, hi⟩ := Option.isSome_iff_exists.mp hvi
    refine ⟨fields, t, i, ?_⟩
    match hat2 : dictGet fields "attributes" with
    | some (.obj af) =>
      exact ⟨af, rfl, ht, hi, rfl, Option.isNone_iff_eq_none.mp ho,
        Option.isNone_iff_eq_none.mp hs⟩
    | some .null | some (.bool _) | some (.num _) | some (.str _) | some (.arr _) | none =>
      rw [hat2] at hat
      simp at hat
  | .null | .bool _ | .num _ | .str _ | .arr _ => simp [cleanVertexRec] at h

/-! ### The deduplication-loop invariant -/

theorem pyGetKey_some (fields : List (String × Json)) (k : String) (v : Json)
    (h : dictGet fields k = some v) : pyGetKey (.obj fields) k = .ok v := by
  simp [pyGetKey, h]

theorem headq_mem {α : Type} {l : List α} {x : α} (h : l.head? = some x) : x ∈ l := by
  cases l with
  | nil => simp at h
  | cons y t =>
    simp at h
    subst h
    exact List.mem_cons_self y t

theorem vMatches_append (heap0 : List Json) (P : List (String × Nat)) (la : String × Nat)
    (t i : Json) :
    vMatches heap0 (P ++ [la]) t i
      = vMatches heap0 P t i ++ if vMatch heap0 t i la then [la] else [] := by
  simp [vMatches, List.filter_append]
  by_cases h : vMatch heap0 t i la <;> simp [h]

theorem mem_of_vMatches (heap0 : List Json) (P : List (String × Nat)) (t i : Json)
    (la : String × Nat) (h : la ∈ vMatches heap0 P t i) : la ∈ P :=
  List.mem_of_mem_filter h

/-- The induction invariant of the deduplication loop after the occurrences P
have been processed: untouched cells hold their input values, the vertex map
sends each identity to the address of its first occurrence, and that cell
carries the running occurrence count and source labels. -/
structure VInv (heap0 : List Json) (P : List (String × Nat)) (st : DecodeState) : Prop where
  hlen : st.heap.length = heap0.length
  hmem : ∀ la ∈ P, la.2 < heap0.length
  huntouched : ∀ a : Nat,
    (∀ t i, ((vMatches heap0 P t i).head?).map Prod.snd ≠ some a) →
    heapVal st.heap a = heapVal heap0 a
  hvs : ∀ t i, lookup2 st.vs t i = ((vMatches heap0 P t i).head?).map Prod.snd
  hcanon : ∀ t i la, (vMatches heap0 P t i).head? = some la →
    ∃ fields, heapVal st.heap la.2 = .obj fields ∧
      (∃ af, dictGet fields "attributes" = some (.obj af)) ∧
      dictGet fields "x_occurrences" = some (.num ((vMatches heap0 P t i).length : Int)) ∧
      dictGet fields "x_sources"
        = some (.arr ((vMatches heap0 P t i).map fun la2 => .str la2.1)) ∧
      dictGet fields "v_type" = some t ∧ dictGet fields "v_id" = some i
  hes : st.es = []
  hou : st.ou = []

theorem VInv.base (heap0 : List Json) : VInv heap0 [] ⟨heap0, [], [], []⟩ := by
  refine ⟨rfl, by simp, fun a _ => rfl, fun t i => ?_, fun t i la h => ?_, rfl, rfl⟩
  · simp [lookup2, assocGet, vMatches]
  · simp [vMatches] at h

theorem VInv.step (heap0 : List Json) (P : List (String × Nat)) (st : DecodeState)
    (inv : VInv heap0 P st) (ets : List EdgeRec) (lbl : String) (p : HPayload) (a : Nat)
    (ha : a < heap0.length) (hclean : cleanVertexRec (heapVal heap0 a) = true)
    (hfresh : a ∉ P.map Prod.snd) :
    ∃ st2, processElement ets lbl p st a = .ok st2 ∧ VInv heap0 (P ++ [(lbl, a)]) st2 := by
  obtain ⟨fields, t0, i0, af, hcell0, hvt, hvi, hat, hxo, hxs⟩ :=
    cleanVertexRec_spec _ hclean
  have hnotcanon : ∀ t i, ((vMatches heap0 P t i).head?).map Prod.snd ≠ some a := by
    intro t i hc
    rcases Option.map_eq_some'.mp hc with ⟨la, hla, hla2⟩
    exact hfresh (List.mem_map.mpr ⟨la, mem_of_vMatches _ _ _ _ _ (headq_mem hla), hla2⟩)
  have hcellst : heapVal st.heap a = .obj fields := by
    rw [inv.huntouched a hnotcanon, hcell0]
  have halt : a < st.heap.length := by rw [inv.hlen]; exact ha
  have hF1 : heapAtE st.heap a = .ok (.obj fields) := by
    rw [heapAtE_lt st.heap a halt, hcellst]
  have hany : (fields.any fun p2 => p2.1 = "v_type") = true := by
    rw [← dictGet_isSome_any, hvt]
    rfl
  have hF2 : pyContains (.obj fields) "v_type" = .ok true := by
    simp [pyContains, hany]
  have hF3 : pyGetKey (.obj fields) "v_type" = .ok t0 := pyGetKey_some _ _ _ hvt
  have hF4 : pyGetKey (.obj fields) "v_id" = .ok i0 := pyGetKey_some _ _ _ hvi
  -- the current element matches exactly the identity (t0, i0)
  have hmatchSelf : vMatch heap0 t0 i0 (lbl, a) = true := by
    simp [vMatch, keyOf, hcell0, hvt, hvi]
  have hmatchOther : ∀ t i, (t, i) ≠ (t0, i0) → vMatch heap0 t i (lbl, a) = false := by
    intro t i hne
    simp only [vMatch, keyOf, hcell0, hvt, hvi, Bool.and_eq_true, decide_eq_true_eq,
      Bool.and_eq_false_iff]
    by_cases h1 : t0 = t
    · subst h1
      by_cases h2 : i0 = i
      · subst h2; exact absurd rfl hne
      · right; simpa using fun he => h2 he
    · left; simpa using fun he => h1 he
  rcases hvs0 : assocGet st.vs t0 with _ | m
  case none =>
    -- the vertex type is new: no prior occurrence of (t0, i0)
    have hl2 : lookup2 st.vs t0 i0 = none := by simp [lookup2, hvs0]
    have hhead : (vMatches heap0 P t0 i0).head? = none := by
      have := (inv.hvs t0 i0).symm.trans hl2
      rcases hh : (vMatches heap0 P t0 i0).head? with _ | la
      · rfl
      · rw [hh] at this; simp at this
    have hnil : vMatches heap0 P t0 i0 = [] := List.head?_eq_none_iff.mp hhead
    have hnew := addOccurrences_fresh fields lbl hxo hxs
    have hMsame : ∀ t i, ¬(t = t0 ∧ i = i0) →
        vMatches heap0 (P ++ [(lbl, a)]) t i = vMatches heap0 P t i := by
      intro t i hne
      rw [vMatches_append]
      rw [hmatchOther t i (by simpa [Prod.ext_iff] using hne)]
      simp
    have hMself : vMatches heap0 (P ++ [(lbl, a)]) t0 i0 = [(lbl, a)] := by
      rw [vMatches_append, hmatchSelf, hnil]
      simp
    refine ⟨DecodeState.mk (st.heap.set a (Json.obj (dictSet (dictSet fields "x_occurrences" (Json.num 1)) "x_sources" (Json.arr [Json.str lbl])))) (assocSet (assocSet st.vs t0 []) t0 (assocSet [] i0 a)) st.es st.ou, ?_, ?_⟩
    · simp only [processElement, hF1, exBind_ok, hF2, if_true, hF3, hF4, hvs0,
        Option.isSome_none, Bool.false_eq_true, if_false, assocGet_assocSet, if_pos rfl,
        Option.getD_some, hnew]
      simp [assocGet]
    · constructor
      · simp [inv.hlen]
      · intro la hla
        rcases List.mem_append.mp hla with h | h
        · exact inv.hmem la h
        · simp at h; subst h; exact ha
      · -- huntouched
        intro a2 H2
        have hne : a2 ≠ a := by
          intro he
          subst he
          exact H2 t0 i0 (by rw [hMself]; rfl)
        rw [heapVal_set_ne _ _ _ _ (fun he => hne he.symm)]
        apply inv.huntouched
        intro t i
        by_cases hti : t = t0 ∧ i = i0
        · obtain ⟨rfl, rfl⟩ := hti
          rw [hnil]
          simp
        · rw [← hMsame t i hti]
          exact H2 t i
      · -- hvs
        intro t i
        by_cases ht : t = t0
        · subst ht
          by_cases hi : i = i0
          · subst hi
            rw [hMself]
            simp [lookup2, assocGet_assocSet]
          · rw [hMsame t i (by simp [hi])]
            have hold := inv.hvs t i
            have hnone : lookup2 st.vs t i = none := by simp [lookup2, hvs0]
            rw [← hold, hnone]
            show lookup2 (assocSet (assocSet st.vs t []) t (assocSet [] i0 a)) t i = none
            unfold lookup2
            rw [assocGet_assocSet, if_pos rfl]
            show assocGet (assocSet [] i0 a) i = none
            rw [show assocSet ([] : List (Json × Nat)) i0 a = [(i0, a)] from rfl, assocGet_cons,
              if_neg (fun he => hi he.symm)]
            simp [assocGet]
        · rw [hMsame t i (by simp [ht])]
          have hold := inv.hvs t i
          simp only [lookup2, assocGet_assocSet, if_neg ht] at hold ⊢
          exact hold
      · -- hcanon
        intro t i la hla
        by_cases hti : t = t0 ∧ i = i0
        · obtain ⟨rfl, rfl⟩ := hti
          rw [hMself] at hla ⊢
          simp at hla
          subst hla
          refine ⟨dictSet (dictSet fields "x_occurrences" (.num 1)) "x_sources"
            (.arr [.str lbl]), ?_, ?_, ?_, ?_, ?_, ?_⟩
          · exact heapVal_set_self st.heap a _ halt
          · refine ⟨af, ?_⟩
            rw [dictGet_dictSet, if_neg (by decide), dictGet_dictSet, if_neg (by decide)]
            exact hat
          · rw [dictGet_dictSet, if_neg (by decide), dictGet_dictSet, if_pos rfl]
            simp
          · rw [dictGet_dictSet, if_pos rfl]
            simp
          · rw [dictGet_dictSet, if_neg (by decide), dictGet_dictSet, if_neg (by decide)]
            exact hvt
          · rw [dictGet_dictSet, if_neg (by decide), dictGet_dictSet, if_neg (by decide)]
            exact hvi
        · rw [hMsame t i hti] at hla ⊢
          obtain ⟨f2, hf2, hrest⟩ := inv.hcanon t i la hla
          have hla2ne : la.2 ≠ a := by
            intro he
            exact hfresh (List.mem_map.mpr ⟨la, mem_of_vMatches _ _ _ _ _ (headq_mem hla), he⟩)
          refine ⟨f2, ?_, hrest⟩
          rw [heapVal_set_ne _ _ _ _ (fun he => hla2ne he.symm)]
          exact hf2
      · exact inv.hes
      · exact inv.hou
  case some =>
    have hMapp : vMatches heap0 (P ++ [(lbl, a)]) t0 i0
        = vMatches heap0 P t0 i0 ++ [(lbl, a)] := by
      rw [vMatches_append, hmatchSelf]
      simp
    have hMsame : ∀ t i, ¬(t = t0 ∧ i = i0) →
        vMatches heap0 (P ++ [(lbl, a)]) t i = vMatches heap0 P t i := by
      intro t i hne
      rw [vMatches_append]
      rw [hmatchOther t i (by simpa [Prod.ext_iff] using hne)]
      simp
    have hlm : lookup2 st.vs t0 i0 = assocGet m i0 := by simp [lookup2, hvs0]
    rcases hh : (vMatches heap0 P t0 i0).head? with _ | la2
    · -- known vertex type, new id
      have hnil : vMatches heap0 P t0 i0 = [] := List.head?_eq_none_iff.mp hh
      have hass : assocGet m i0 = none := by
        rw [← hlm, inv.hvs t0 i0, hh]
        rfl
      have hMself : vMatches heap0 (P ++ [(lbl, a)]) t0 i0 = [(lbl, a)] := by
        rw [hMapp, hnil]
        rfl
      have hnew := addOccurrences_fresh fields lbl hxo hxs
      refine ⟨DecodeState.mk (st.heap.set a (Json.obj (dictSet (dictSet fields "x_occurrences" (Json.num 1)) "x_sources" (Json.arr [Json.str lbl])))) (assocSet st.vs t0 (assocSet m i0 a)) st.es st.ou, ?_, ?_⟩
      · simp only [processElement, hF1, exBind_ok, hF2, if_true, hF3, hF4, hvs0,
          Option.isSome_some, if_true, Option.getD_some, hass, hnew]
      · constructor
        · simp [inv.hlen]
        · intro la hla
          rcases List.mem_append.mp hla with h | h
          · exact inv.hmem la h
          · simp at h; subst h; exact ha
        · intro a2 H2
          have hne : a2 ≠ a := by
            intro he
            subst he
            exact H2 t0 i0 (by rw [hMself]; rfl)
          rw [heapVal_set_ne _ _ _ _ (fun he => hne he.symm)]
          apply inv.huntouched
          intro t i
          by_cases hti : t = t0 ∧ i = i0
          · obtain ⟨rfl, rfl⟩ := hti
            rw [hnil]
            simp
          · rw [← hMsame t i hti]
            exact H2 t i
        · intro t i
          by_cases ht : t = t0
          · subst ht
            by_cases hi : i = i0
            · subst hi
              rw [hMself]
              show (assocGet (assocSet st.vs t (assocSet m i a)) t).bind _ = _
              rw [assocGet_assocSet, if_pos rfl]
              show assocGet (assocSet m i a) i = _
              rw [assocGet_assocSet, if_pos rfl]
              rfl
            · rw [hMsame t i (by simp [hi])]
              have hold := inv.hvs t i
              rw [← hold]
              show (assocGet (assocSet st.vs t (assocSet m i0 a)) t).bind _ = _
              rw [assocGet_assocSet, if_pos rfl]
              show assocGet (assocSet m i0 a) i = _
              rw [assocGet_assocSet, if_neg hi]
              simp [lookup2, hvs0]
          · rw [hMsame t i (by simp [ht])]
            have hold := inv.hvs t i
            rw [← hold]
            show (assocGet (assocSet st.vs t0 (assocSet m i0 a)) t).bind _ = _
            rw [assocGet_assocSet, if_neg ht]
            rfl
        · intro t i la hla
          by_cases hti : t = t0 ∧ i = i0
          · obtain ⟨rfl, rfl⟩ := hti
            rw [hMself] at hla ⊢
            simp at hla
            subst hla
            refine ⟨dictSet (dictSet fields "x_occurrences" (.num 1)) "x_sources"
              (.arr [.str lbl]), ?_, ?_, ?_, ?_, ?_, ?_⟩
            · exact heapVal_set_self st.heap a _ halt
            · refine ⟨af, ?_⟩
              rw [dictGet_dictSet, if_neg (by decide), dictGet_dictSet, if_neg (by decide)]
              exact hat
            · rw [dictGet_dictSet, if_neg (by decide), dictGet_dictSet, if_pos rfl]
              simp
            · rw [dictGet_dictSet, if_pos rfl]
              simp
            · rw [dictGet_dictSet, if_neg (by decide), dictGet_dictSet, if_neg (by decide)]
              exact hvt
            · rw [dictGet_dictSet, if_neg (by decide), dictGet_dictSet, if_neg (by decide)]
              exact hvi
          · rw [hMsame t i hti] at hla ⊢
            obtain ⟨f2, hf2, hrest⟩ := inv.hcanon t i la hla
            have hla2ne : la.2 ≠ a := by
              intro he
              exact hfresh (List.mem_map.mpr
                ⟨la, mem_of_vMatches _ _ _ _ _ (headq_mem hla), he⟩)
            refine ⟨f2, ?_, hrest⟩
            rw [heapVal_set_ne _ _ _ _ (fun he => hla2ne he.symm)]
            exact hf2
        · exact inv.hes
        · exact inv.hou
    · -- existing id: merge into the canonical record
      obtain ⟨mtl, hmtl⟩ : ∃ tl, vMatches heap0 P t0 i0 = la2 :: tl := by
        cases hm : vMatches heap0 P t0 i0 with
        | nil => rw [hm] at hh; simp at hh
        | cons x tl =>
          rw [hm] at hh
          simp at hh
          subst hh
          exact ⟨tl, rfl⟩
      have hass : assocGet m i0 = some la2.2 := by
        rw [← hlm, inv.hvs t0 i0, hh]
        rfl
      obtain ⟨tfields, htcell, ⟨ta, hta⟩, htxo, htxs, htvt, htvi⟩ := inv.hcanon t0 i0 la2 hh
      have ha2 : la2.2 < heap0.length :=
        inv.hmem la2 (mem_of_vMatches _ _ _ _ _ (headq_mem hh))
      have ha2st : la2.2 < st.heap.length := by rw [inv.hlen]; exact ha2
      have hF5 : heapAtE st.heap la2.2 = .ok (.obj tfields) := by
        rw [heapAtE_lt st.heap la2.2 ha2st, htcell]
      have hAC := attCopy_shape fields tfields af ta hat hta
      have htf2xo : dictGet (dictSet tfields "attributes"
          (.obj (af.foldl (fun m2 p2 => dictSet m2 p2.1 p2.2) ta))) "x_occurrences"
          = some (.num ((vMatches heap0 P t0 i0).length : Int)) := by
        rw [dictGet_dictSet, if_neg (by decide)]
        exact htxo
      have htf2xs : dictGet (dictSet tfields "attributes"
          (.obj (af.foldl (fun m2 p2 => dictSet m2 p2.1 p2.2) ta))) "x_sources"
          = some (.arr ((vMatches heap0 P t0 i0).map fun la3 => .str la3.1)) := by
        rw [dictGet_dictSet, if_neg (by decide)]
        exact htxs
      have hAO := addOccurrences_incr (dictSet tfields "attributes"
        (.obj (af.foldl (fun m2 p2 => dictSet m2 p2.1 p2.2) ta))) lbl
        ((vMatches heap0 P t0 i0).length : Int)
        ((vMatches heap0 P t0 i0).map fun la3 => .str la3.1) htf2xo htf2xs
      have hheadApp : (vMatches heap0 (P ++ [(lbl, a)]) t0 i0).head? = some la2 := by
        rw [hMapp, hmtl]
        rfl
      refine ⟨DecodeState.mk (st.heap.set la2.2 (Json.obj (dictSet (dictSet (dictSet tfields "attributes" (Json.obj (af.foldl (fun m2 p2 => dictSet m2 p2.1 p2.2) ta))) "x_occurrences" (Json.num ((vMatches heap0 P t0 i0).length + 1))) "x_sources" (Json.arr (((vMatches heap0 P t0 i0).map fun la3 => Json.str la3.1) ++ [Json.str lbl]))))) st.vs st.es st.ou, ?_, ?_⟩
      · simp only [processElement, hF1, exBind_ok, hF2, if_true, hF3, hF4, hvs0,
          Option.isSome_some, if_true, Option.getD_some, hass, hF5, hAC, hAO]
      · constructor
        · simp [inv.hlen]
        · intro la hla
          rcases List.mem_append.mp hla with h | h
          · exact inv.hmem la h
          · simp at h; subst h; exact ha
        · intro a2 H2
          have hne : a2 ≠ la2.2 := by
            intro he
            subst he
            exact H2 t0 i0 (by rw [hheadApp]; rfl)
          rw [heapVal_set_ne _ _ _ _ (fun he => hne he.symm)]
          apply inv.huntouched
          intro t i
          by_cases hti : t = t0 ∧ i = i0
          · obtain ⟨rfl, rfl⟩ := hti
            rw [hh]
            intro hc
            simp at hc
            subst hc
            exact H2 t i (by rw [hheadApp]; rfl)
          · rw [← hMsame t i hti]
            exact H2 t i
        · intro t i
          by_cases hti : t = t0 ∧ i = i0
          · obtain ⟨rfl, rfl⟩ := hti
            rw [hheadApp]
            have hold := inv.hvs t i
            rw [hh] at hold
            exact hold
          · rw [hMsame t i hti]
            exact inv.hvs t i
        · intro t i la hla
          by_cases hti : t = t0 ∧ i = i0
          · obtain ⟨rfl, rfl⟩ := hti
            rw [hheadApp] at hla
            have hla2 : la2 = la := by simpa using hla
            subst hla2
            refine ⟨_, heapVal_set_self st.heap la2.2 _ ha2st, ?_, ?_, ?_, ?_, ?_⟩
            · refine ⟨af.foldl (fun m2 p2 => dictSet m2 p2.1 p2.2) ta, ?_⟩
              rw [dictGet_dictSet, if_neg (by decide), dictGet_dictSet, if_neg (by decide),
                dictGet_dictSet, if_pos rfl]
            · rw [dictGet_dictSet, if_neg (by decide), dictGet_dictSet, if_pos rfl]
              rw [hMapp]
              simp
            · rw [dictGet_dictSet, if_pos rfl]
              rw [hMapp]
              simp
            · rw [dictGet_dictSet, if_neg (by decide), dictGet_dictSet, if_neg (by decide),
                dictGet_dictSet, if_neg (by decide)]
              exact htvt
            · rw [dictGet_dictSet, if_neg (by decide), dictGet_dictSet, if_neg (by decide),
                dictGet_dictSet, if_neg (by decide)]
              exact htvi
          · rw [hMsame t i hti] at hla ⊢
            obtain ⟨f2, hf2, hats, hrest⟩ := inv.hcanon t i la hla
            have hne2 : la.2 ≠ la2.2 := by
              intro he
              rw [he, htcell] at hf2
              have hfe : tfields = f2 := by
                injection hf2
              rw [← hfe] at hrest
              obtain ⟨_, _, hvt2, hvi2⟩ := hrest
              rw [htvt] at hvt2
              rw [htvi] at hvi2
              injection hvt2 with hvt3
              injection hvi2 with hvi3
              exact hti ⟨hvt3.symm, hvi3.symm⟩
            refine ⟨f2, ?_, hats, hrest⟩
            rw [heapVal_set_ne _ _ _ _ (fun he => hne2 he.symm)]
            exact hf2
        · exact inv.hes
        · exact inv.hou

theorem VInv.foldAddrs (heap0 : List Json) (ets : List EdgeRec) (lbl : String) (p : HPayload)
    (addrs : List Nat) :
    ∀ (P : List (String × Nat)) (st : DecodeState), VInv heap0 P st →
    (∀ a ∈ addrs, a < heap0.length ∧ cleanVertexRec (heapVal heap0 a) = true) →
    (P.map Prod.snd ++ addrs).Nodup →
    ∃ st2, List.foldlM (fun s a => processElement ets lbl p s a) st addrs = .ok st2 ∧
      VInv heap0 (P ++ addrs.map (fun a => (lbl, a))) st2 := by
  induction addrs with
  | nil =>
    intro P st inv _ _
    exact ⟨st, rfl, by simpa using inv⟩
  | cons a rest ih =>
    intro P st inv hclean hnd
    have hdisj := (List.nodup_append.mp hnd).2.2
    have hfr : a ∉ P.map Prod.snd := fun hmem => hdisj hmem (List.mem_cons_self a rest)
    obtain ⟨st1, hrun, inv1⟩ :=
      VInv.step heap0 P st inv ets lbl p a (hclean a (by simp)).1 (hclean a (by simp)).2 hfr
    have hnd2 : ((P ++ [(lbl, a)]).map Prod.snd ++ rest).Nodup := by
      have : (P ++ [(lbl, a)]).map Prod.snd = P.map Prod.snd ++ [a] := by simp
      rw [this, List.append_assoc]
      simpa using hnd
    obtain ⟨st2, hrun2, inv2⟩ := ih (P ++ [(lbl, a)]) st1 inv1
      (fun a2 h2 => hclean a2 (by simp [h2])) hnd2
    refine ⟨st2, ?_, ?_⟩
    · rw [List.foldlM_cons, hrun, exBind_ok, hrun2]
    · have : P ++ (a :: rest).map (fun a2 => (lbl, a2))
          = (P ++ [(lbl, a)]) ++ rest.map (fun a2 => (lbl, a2)) := by simp
      rw [this]
      exact inv2

theorem VInv.payload (heap0 : List Json) (ets : List EdgeRec) (lbl : String) (p : HPayload)
    (P : List (String × Nat)) (st : DecodeState) (inv : VInv heap0 P st)
    (hshape : ∃ addrs, p = HPayload.elems addrs ∧ addrs ≠ [])
    (hclean : ∀ a ∈ payloadAddrs p, a < heap0.length ∧ cleanVertexRec (heapVal heap0 a) = true)
    (hnd : (P.map Prod.snd ++ payloadAddrs p).Nodup) :
    ∃ st2, processPayload ets st (lbl, p) = .ok st2 ∧
      VInv heap0 (P ++ (payloadAddrs p).map (fun a => (lbl, a))) st2 := by
  obtain ⟨addrs, rfl, hne⟩ := hshape
  match addrs, hne with
  | a0 :: rest, _ =>
    have hpa : payloadAddrs (HPayload.elems (a0 :: rest)) = a0 :: rest := rfl
    rw [hpa] at hclean hnd ⊢
    obtain ⟨fields, t0, i0, af, hcell0, -, -, -, -, -⟩ :=
      cleanVertexRec_spec _ (hclean a0 (by simp)).2
    have hdisj := (List.nodup_append.mp hnd).2.2
    have hfr : a0 ∉ P.map Prod.snd := fun hmem => hdisj hmem (by simp)
    have hnotcanon : ∀ t i, ((vMatches heap0 P t i).head?).map Prod.snd ≠ some a0 := by
      intro t i hc
      rcases Option.map_eq_some'.mp hc with ⟨la, hla, hla2⟩
      exact hfr (List.mem_map.mpr ⟨la, mem_of_vMatches _ _ _ _ _ (headq_mem hla), hla2⟩)
    have hcellst : heapVal st.heap a0 = .obj fields := by
      rw [inv.huntouched a0 hnotcanon, hcell0]
    have halt : a0 < st.heap.length := by rw [inv.hlen]; exact (hclean a0 (by simp)).1
    have hF1 : heapAtE st.heap a0 = .ok (.obj fields) := by
      rw [heapAtE_lt st.heap a0 halt, hcellst]
    obtain ⟨st2, hrun, inv2⟩ :=
      VInv.foldAddrs heap0 ets lbl (HPayload.elems (a0 :: rest)) (a0 :: rest) P st inv
        hclean hnd
    refine ⟨st2, ?_, inv2⟩
    show processPayload ets st (lbl, HPayload.elems (a0 :: rest)) = .ok st2
    simp only [processPayload, hF1]
    exact hrun

theorem payloadShapeOk_spec (p : HPayload) (h : payloadShapeOk p = true) :
    ∃ addrs, p = HPayload.elems addrs ∧ addrs ≠ [] := by
  match p, h with
  | .elems (a :: rest), _ => exact ⟨a :: rest, rfl, by simp⟩

theorem VInv.frame (heap0 : List Json) (ets : List EdgeRec) (fr : Frame) :
    ∀ (P : List (String × Nat)) (st : DecodeState), VInv heap0 P st →
    (∀ lp ∈ fr, payloadShapeOk lp.2 = true ∧
      ∀ a ∈ payloadAddrs lp.2, a < heap0.length ∧ cleanVertexRec (heapVal heap0 a) = true) →
    (P.map Prod.snd ++ (frameOcc fr).map Prod.snd).Nodup →
    ∃ st2, List.foldlM (processPayload ets) st fr = .ok st2 ∧
      VInv heap0 (P ++ frameOcc fr) st2 := by
  induction fr with
  | nil =>
    intro P st inv _ _
    exact ⟨st, rfl, by simpa [frameOcc] using inv⟩
  | cons lp rest ih =>
    intro P st inv hwf hnd
    obtain ⟨lbl, p⟩ := lp
    have hocc : frameOcc ((lbl, p) :: rest)
        = (payloadAddrs p).map (fun a => (lbl, a)) ++ frameOcc rest := by
      simp [frameOcc]
    have hsnd : ((payloadAddrs p).map (fun a => (lbl, a))).map Prod.snd = payloadAddrs p := by
      simp
    have hnd1 : (P.map Prod.snd ++ payloadAddrs p).Nodup := by
      rw [hocc] at hnd
      simp only [List.map_append, hsnd] at hnd
      rw [← List.append_assoc] at hnd
      exact (List.nodup_append.mp hnd).1
    have hnd2 : ((P ++ (payloadAddrs p).map (fun a => (lbl, a))).map Prod.snd
        ++ (frameOcc rest).map Prod.snd).Nodup := by
      rw [hocc] at hnd
      simp only [List.map_append, hsnd] at hnd
      rw [← List.append_assoc] at hnd
      simpa using hnd
    obtain ⟨st1, hrun, inv1⟩ := VInv.payload heap0 ets lbl p P st inv
      (payloadShapeOk_spec p (hwf (lbl, p) (by simp)).1) (hwf (lbl, p) (by simp)).2 hnd1
    obtain ⟨st2, hrun2, inv2⟩ := ih (P ++ (payloadAddrs p).map (fun a => (lbl, a))) st1 inv1
      (fun lp2 h2 => hwf lp2 (by simp [h2])) hnd2
    refine ⟨st2, ?_, ?_⟩
    · rw [List.foldlM_cons, hrun, exBind_ok, hrun2]
    · rw [hocc, ← List.append_assoc]
      exact inv2

theorem VInv.frames (heap0 : List Json) (ets : List EdgeRec) (frames : List Frame) :
    ∀ (P : List (String × Nat)) (st : DecodeState), VInv heap0 P st →
    (∀ fr ∈ frames, ∀ lp ∈ fr, payloadShapeOk lp.2 = true ∧
      ∀ a ∈ payloadAddrs lp.2, a < heap0.length ∧ cleanVertexRec (heapVal heap0 a) = true) →
    (P.map Prod.snd ++ (occList frames).map Prod.snd).Nodup →
    ∃ st2, List.foldlM (fun st2 fr => List.foldlM (processPayload ets) st2 fr) st frames
        = .ok st2 ∧
      VInv heap0 (P ++ occList frames) st2 := by
  induction frames with
  | nil =>
    intro P st inv _ _
    exact ⟨st, rfl, by simpa [occList] using inv⟩
  | cons fr rest ih =>
    intro P st inv hwf hnd
    have hocc : occList (fr :: rest) = frameOcc fr ++ occList rest := by
      simp [occList]
    have hnd1 : (P.map Prod.snd ++ (frameOcc fr).map Prod.snd).Nodup := by
      rw [hocc] at hnd
      simp only [List.map_append] at hnd
      rw [← List.append_assoc] at hnd
      exact (List.nodup_append.mp hnd).1
    have hnd2 : ((P ++ frameOcc fr).map Prod.snd ++ (occList rest).map Prod.snd).Nodup := by
      rw [hocc] at hnd
      simp only [List.map_append] at hnd
      rw [← List.append_assoc] at hnd
      simpa using hnd
    obtain ⟨st1, hrun, inv1⟩ := VInv.frame heap0 ets fr P st inv (hwf fr (by simp)) hnd1
    obtain ⟨st2, hrun2, inv2⟩ := ih (P ++ frameOcc fr) st1 inv1
      (fun fr2 h2 => hwf fr2 (by simp [h2])) hnd2
    refine ⟨st2, ?_, ?_⟩
    · rw [List.foldlM_cons, hrun, exBind_ok, hrun2]
    · rw [hocc, ← List.append_assoc]
      exact inv2

theorem decodeRun_clean (heap0 : List Json) (ets : List EdgeRec) (frames : List Frame)
    (h : cleanVertexInput heap0 frames) :
    ∃ st2, decodeRun ets frames heap0 = .ok st2 ∧ VInv heap0 (occList frames) st2 := by
  obtain ⟨st2, hrun, inv2⟩ := VInv.frames heap0 ets frames [] ⟨heap0, [], [], []⟩
    (VInv.base heap0) h.1 (by simpa using h.2)
  exact ⟨st2, hrun, by simpa using inv2⟩

/-! ### Rendering lemmas -/

theorem assocGet_map {α β γ : Type} [DecidableEq α] (m : List (α × β)) (g : β → γ) (k : α) :
    assocGet (m.map fun p => (p.1, g p.2)) k = (assocGet m k).map g := by
  induction m with
  | nil => simp [assocGet]
  | cons p t ih =>
    obtain ⟨k1, v1⟩ := p
    by_cases h : k1 = k <;> simp [assocGet_cons, h, ih]

theorem vertexEntry_render (graphOnly : Bool) (st : DecodeState) (t i : Json) :
    vertexEntry (renderState graphOnly st) t i = (lookup2 st.vs t i).map (heapVal st.heap) := by
  unfold vertexEntry renderState lookup2
  simp only []
  rw [assocGet_map]
  cases h : assocGet st.vs t with
  | none => rfl
  | some m =>
    show assocGet (m.map fun q => (q.1, heapVal st.heap q.2)) i = (assocGet m i).map _
    rw [assocGet_map]

theorem occList_clean (heap0 : List Json) (frames : List Frame)
    (h : cleanVertexInput heap0 frames) :
    ∀ la ∈ occList frames, la.2 < heap0.length ∧ cleanVertexRec (heapVal heap0 la.2) = true := by
  intro la hla
  simp only [occList, List.mem_flatMap] at hla
  obtain ⟨fr, hfr, hla2⟩ := hla
  simp only [frameOcc, List.mem_flatMap] at hla2
  obtain ⟨lp, hlp, hla3⟩ := hla2
  simp only [List.mem_map] at hla3
  obtain ⟨a, hmem, rfl⟩ := hla3
  exact (h.1 fr hfr lp hlp).2 a hmem

/-! ### Claim theorems -/

/-- Claim C1, counterexample: in the one-frame input whose single payload
lists the Person/7 record twice, the canonical entity's occurrence count is
2 although the id appeared in exactly one frame, so the count does not equal
the number of frames in which the id appeared. -/
theorem claim_C1_counterexample :
    (parseQueryOutput [] true [[("result", HPayload.elems [0, 1])]]
        [Json.obj [("v_type", .str "Person"), ("v_id", .str "7"),
          ("attributes", .obj [("age", .num 30)])],
         Json.obj [("v_type", .str "Person"), ("v_id", .str "7"),
          ("attributes", .obj [("age", .num 31)])]]).map
        (fun r => (vertexEntry r (.str "Person") (.str "7")).map
          (fun e => keyOf e "x_occurrences"))
      = .ok (some (.num 2)) ∧
    framesContaining
        [Json.obj [("v_type", .str "Person"), ("v_id", .str "7"),
          ("attributes", .obj [("age", .num 30)])],
         Json.obj [("v_type", .str "Person"), ("v_id", .str "7"),
          ("attributes", .obj [("age", .num 31)])]]
        [[("result", HPayload.elems [0, 1])]] (.str "Person") (.str "7") = 1 ∧
    (2 : Int) ≠ ((1 : Nat) : Int) := by
  refine ⟨by decide, by decide, by decide⟩

/-- Claim C1 (amended): for every clean vertex-set input, every element
carrying v_type and v_id ends up in exactly one canonical entity per
distinct id within its type; that entity's x_occurrences equals the number
of occurrences of that id across all payloads (not the number of frames),
and its x_sources lists the payload labels in encounter order, duplicates
allowed. -/
theorem claim_C1 (ets : List EdgeRec) (graphOnly : Bool) (frames : List Frame)
    (heap0 : List Json) (h : cleanVertexInput heap0 frames) :
    ∃ res, parseQueryOutput ets graphOnly frames heap0 = .ok res ∧
      ∀ t i : Json,
        (vMatches heap0 (occList frames) t i = [] → vertexEntry res t i = none) ∧
        (vMatches heap0 (occList frames) t i ≠ [] → ∃ entry,
          vertexEntry res t i = some entry ∧
          keyOf entry "x_occurrences"
            = .num ((vMatches heap0 (occList frames) t i).length : Int) ∧
          keyOf entry "x_sources"
            = .arr ((vMatches heap0 (occList frames) t i).map fun la => .str la.1)) := by
  obtain ⟨st2, hrun, inv⟩ := decodeRun_clean heap0 ets frames h
  refine ⟨renderState graphOnly st2, ?_, ?_⟩
  · unfold parseQueryOutput
    rw [hrun]
    rfl
  · intro t i
    constructor
    · intro hnil
      rw [vertexEntry_render, inv.hvs t i, hnil]
      rfl
    · intro hne
      rcases hh : (vMatches heap0 (occList frames) t i).head? with _ | la
      · exact absurd (List.head?_eq_none_iff.mp hh) hne
      · obtain ⟨fields, hcell, ⟨af, haf⟩, hxo, hxs, hvt2, hvi2⟩ := inv.hcanon t i la hh
        refine ⟨.obj fields, ?_, ?_, ?_⟩
        · rw [vertexEntry_render, inv.hvs t i, hh]
          simp [hcell]
        · simp [keyOf, hxo]
        · simp [keyOf, hxs]

/-- Claim C1, witness: the two-frame Person/7 input is clean, and decoding
it yields one canonical Person/7 entity whose count is 2, whose sources are
the labels result and other in order, and whose age is the later value 31. -/
theorem claim_C1_witness :
    cleanVertexInput
      [Json.obj [("v_type", .str "Person"), ("v_id", .str "7"),
        ("attributes", .obj [("age", .num 30)])],
       Json.obj [("v_type", .str "Person"), ("v_id", .str "7"),
        ("attributes", .obj [("age", .num 31)])]]
      [[("result", HPayload.elems [0])], [("other", HPayload.elems [1])]] ∧
    (∃ res, parseQueryOutput [] true
        [[("result", HPayload.elems [0])], [("other", HPayload.elems [1])]]
        [Json.obj [("v_type", .str "Person"), ("v_id", .str "7"),
          ("attributes", .obj [("age", .num 30)])],
         Json.obj [("v_type", .str "Person"), ("v_id", .str "7"),
          ("attributes", .obj [("age", .num 31)])]] = .ok res ∧
      ∀ t i : Json,
        (vMatches
            [Json.obj [("v_type", .str "Person"), ("v_id", .str "7"),
              ("attributes", .obj [("age", .num 30)])],
             Json.obj [("v_type", .str "Person"), ("v_id", .str "7"),
              ("attributes", .obj [("age", .num 31)])]]
            (occList [[("result", HPayload.elems [0])], [("other", HPayload.elems [1])]])
            t i = [] → vertexEntry res t i = none) ∧
        (vMatches
            [Json.obj [("v_type", .str "Person"), ("v_id", .str "7"),
              ("attributes", .obj [("age", .num 30)])],
             Json.obj [("v_type", .str "Person"), ("v_id", .str "7"),
              ("attributes", .obj [("age", .num 31)])]]
            (occList [[("result", HPayload.elems [0])], [("other", HPayload.elems [1])]])
            t i ≠ [] → ∃ entry,
          vertexEntry res t i = some entry ∧
          keyOf entry "x_occurrences"
            = .num ((vMatches
                [Json.obj [("v_type", .str "Person"), ("v_id", .str "7"),
                  ("attributes", .obj [("age", .num 30)])],
                 Json.obj [("v_type", .str "Person"), ("v_id", .str "7"),
                  ("attributes", .obj [("age", .num 31)])]]
                (occList [[("result", HPayload.elems [0])], [("other", HPayload.elems [1])]])
                t i).length : Int) ∧
          keyOf entry "x_sources"
            = .arr ((vMatches
                [Json.obj [("v_type", .str "Person"), ("v_id", .str "7"),
                  ("attributes", .obj [("age", .num 30)])],
                 Json.obj [("v_type", .str "Person"), ("v_id", .str "7"),
                  ("attributes", .obj [("age", .num 31)])]]
                (occList [[("result", HPayload.elems [0])], [("other", HPayload.elems [1])]])
                t i).map fun la => .str la.1))) ∧
    parseQueryOutput [] true
        [[("result", HPayload.elems [0])], [("other", HPayload.elems [1])]]
        [Json.obj [("v_type", .str "Person"), ("v_id", .str "7"),
          ("attributes", .obj [("age", .num 30)])],
         Json.obj [("v_type", .str "Person"), ("v_id", .str "7"),
          ("attributes", .obj [("age", .num 31)])]]
      = .ok ⟨[(.str "Person", [(.str "7", .obj [("v_type", .str "Person"),
          ("v_id", .str "7"), ("attributes", .obj [("age", .num 31)]),
          ("x_occurrences", .num 2),
          ("x_sources", .arr [.str "result", .str "other"])])])], [], none⟩ :=
  ⟨by decide, claim_C1 [] true _ _ (by decide), by decide⟩

/-- Claim C10: parseQueryOutput mutates the caller's input structure in
place.  For clean vertex inputs, each identity's canonical record is stored
at the heap address of the identity's first input element, that cell gains
the x_occurrences and x_sources keys, and it no longer equals its input
value, so the input heap is changed whenever any graph element was decoded;
moreover a decoded edge element's input cell gains e_id and (for a directed
type declaring one) reverse_edge, as the concrete edge run shows. -/
theorem claim_C10 (ets : List EdgeRec) (frames : List Frame) (heap0 : List Json)
    (h : cleanVertexInput heap0 frames) :
    (∃ st2, decodeRun ets frames heap0 = .ok st2 ∧
      (∀ t i la, (vMatches heap0 (occList frames) t i).head? = some la →
        la ∈ occList frames ∧
        lookup2 st2.vs t i = some la.2 ∧
        (∃ fields, heapVal st2.heap la.2 = .obj fields ∧
          (dictGet fields "x_occurrences").isSome ∧ (dictGet fields "x_sources").isSome) ∧
        heapVal st2.heap la.2 ≠ heapVal heap0 la.2) ∧
      (occList frames ≠ [] → st2.heap ≠ heap0)) ∧
    decodeRun [⟨"knows", true, [("REVERSE_EDGE", Json.str "rev_knows")], none⟩]
      [[("res", HPayload.elems [0])]]
      [Json.obj [("e_type", .str "knows"), ("from_type", .str "Person"),
        ("from_id", .str "1"), ("to_type", .str "Person"), ("to_id", .str "2"),
        ("attributes", .obj [])]]
      = .ok ⟨[Json.obj [("e_type", .str "knows"), ("from_type", .str "Person"),
          ("from_id", .str "1"), ("to_type", .str "Person"), ("to_id", .str "2"),
          ("attributes", .obj []), ("e_id", .str "Person(1)->Person(2)"),
          ("reverse_edge", .str "rev_knows"), ("x_occurrences", .num 1),
          ("x_sources", .arr [.str "res"])]], [],
        [(.str "knows", [(.str "Person(1)->Person(2)", 0)])], []⟩ := by
  constructor
  · obtain ⟨st2, hrun, inv⟩ := decodeRun_clean heap0 ets frames h
    have hkey : ∀ t i la, (vMatches heap0 (occList frames) t i).head? = some la →
        la ∈ occList frames ∧ lookup2 st2.vs t i = some la.2 ∧
        (∃ fields, heapVal st2.heap la.2 = .obj fields ∧
          (dictGet fields "x_occurrences").isSome ∧ (dictGet fields "x_sources").isSome) ∧
        heapVal st2.heap la.2 ≠ heapVal heap0 la.2 := by
      intro t i la hh
      have hmem : la ∈ occList frames := mem_of_vMatches _ _ _ _ _ (headq_mem hh)
      obtain ⟨fields, hcell, ⟨af, haf⟩, hxo, hxs, hvt2, hvi2⟩ := inv.hcanon t i la hh
      obtain ⟨f0, t0, i0, af0, hcell0, hvt0, hvi0, hat0, hxo0, hxs0⟩ :=
        cleanVertexRec_spec _ (occList_clean heap0 frames h la hmem).2
      refine ⟨hmem, ?_, ⟨fields, hcell, by simp [hxo], by simp [hxs]⟩, ?_⟩
      · rw [inv.hvs t i, hh]
        rfl
      · intro he
        rw [hcell, hcell0] at he
        injection he with hfe
        rw [← hfe] at hxo0
        rw [hxo0] at hxo
        exact Option.noConfusion hxo
    refine ⟨st2, hrun, hkey, ?_⟩
    intro hne he
    match hocc : occList frames, hne with
    | la0 :: rest, _ =>
      have ht0 : vMatch heap0 (keyOf (heapVal heap0 la0.2) "v_type")
          (keyOf (heapVal heap0 la0.2) "v_id") la0 = true := by
        simp [vMatch]
      have hh0 : (vMatches heap0 (occList frames) (keyOf (heapVal heap0 la0.2) "v_type")
          (keyOf (heapVal heap0 la0.2) "v_id")).head? = some la0 := by
        rw [hocc]
        unfold vMatches
        rw [List.filter_cons, if_pos ht0]
        rfl
      have := (hkey _ _ la0 hh0).2.2.2
      rw [he] at this
      exact this rfl
  · decide

/-- Claim C10, witness: on a one-element vertex input the decode stores the
input cell's address as the canonical record, adds the bookkeeping keys to
that cell, and leaves the heap changed. -/
theorem claim_C10_witness :
    cleanVertexInput
      [Json.obj [("v_type", .str "P"), ("v_id", .str "1"), ("attributes", .obj [])]]
      [[("out", HPayload.elems [0])]] ∧
    ((∃ st2, decodeRun []
        [[("out", HPayload.elems [0])]]
        [Json.obj [("v_type", .str "P"), ("v_id", .str "1"), ("attributes", .obj [])]]
        = .ok st2 ∧
      (∀ t i la, (vMatches
          [Json.obj [("v_type", .str "P"), ("v_id", .str "1"), ("attributes", .obj [])]]
          (occList [[("out", HPayload.elems [0])]]) t i).head? = some la →
        la ∈ occList [[("out", HPayload.elems [0])]] ∧
        lookup2 st2.vs t i = some la.2 ∧
        (∃ fields, heapVal st2.heap la.2 = .obj fields ∧
          (dictGet fields "x_occurrences").isSome ∧ (dictGet fields "x_sources").isSome) ∧
        heapVal st2.heap la.2 ≠ heapVal
          [Json.obj [("v_type", .str "P"), ("v_id", .str "1"), ("attributes", .obj [])]]
          la.2) ∧
      (occList [[("out", HPayload.elems [0])]] ≠ [] → st2.heap ≠
        [Json.obj [("v_type", .str "P"), ("v_id", .str "1"), ("attributes", .obj [])]])) ∧
    decodeRun [⟨"knows", true, [("REVERSE_EDGE", Json.str "rev_knows")], none⟩]
      [[("res", HPayload.elems [0])]]
      [Json.obj [("e_type", .str "knows"), ("from_type", .str "Person"),
        ("from_id", .str "1"), ("to_type", .str "Person"), ("to_id", .str "2"),
        ("attributes", .obj [])]]
      = .ok ⟨[Json.obj [("e_type", .str "knows"), ("from_type", .str "Person"),
          ("from_id", .str "1"), ("to_type", .str "Person"), ("to_id", .str "2"),
          ("attributes", .obj []), ("e_id", .str "Person(1)->Person(2)"),
          ("reverse_edge", .str "rev_knows"), ("x_occurrences", .num 1),
          ("x_sources", .arr [.str "res"])]], [],
        [(.str "knows", [(.str "Person(1)->Person(2)", 0)])], []⟩) :=
  ⟨by decide, claim_C10 []
    [[("out", HPayload.elems [0])]]
    [Json.obj [("v_type", .str "P"), ("v_id", .str "1"), ("attributes", .obj [])]]
    (by decide)⟩

theorem dictGet_eq_none_of_not_mem (m : List (String × Json)) (k : String)
    (h : k ∉ m.map Prod.fst) : dictGet m k = none := by
  induction m with
  | nil => rfl
  | cons p t ih =>
    obtain ⟨k1, v1⟩ := p
    simp only [List.map_cons, List.mem_cons] at h
    push_neg at h
    rw [dictGet_cons, if_neg (fun he => h.1 he.symm), ih h.2]

theorem foldl_dictSet_get (sa : List (String × Json)) :
    ∀ (ta : List (String × Json)), (sa.map Prod.fst).Nodup → ∀ k,
      dictGet (sa.foldl (fun m p => dictSet m p.1 p.2) ta) k
        = if (dictGet sa k).isSome then dictGet sa k else dictGet ta k := by
  induction sa with
  | nil =>
    intro ta _ k
    simp [dictGet]
  | cons p rest ih =>
    intro ta hnd k
    obtain ⟨k1, v1⟩ := p
    simp only [List.foldl_cons]
    have hnd2 : (rest.map Prod.fst).Nodup := by
      simp at hnd
      exact hnd.2
    have hk1 : k1 ∉ rest.map Prod.fst := by
      simp at hnd
      simpa using hnd.1
    rw [ih (dictSet ta k1 v1) hnd2 k]
    by_cases h : k = k1
    · subst h
      rw [dictGet_eq_none_of_not_mem rest k hk1]
      rw [dictGet_cons, if_pos rfl, dictGet_dictSet, if_pos rfl]
      simp
    · rw [dictGet_cons, if_neg (Ne.symm h), dictGet_dictSet, if_neg h]

/-- Claim C2: attribute merging is last-write-wins per attribute key, not
per entity: attCopy overlays the later occurrence's attribute values onto
the canonical record under the same keys and keeps keys absent from the
later occurrence; in the pipeline, a=1 with b=0 followed by a=2 yields a
canonical entity with a=2 and b=0. -/
theorem claim_C2 (sf tf sa ta : List (String × Json))
    (hs : dictGet sf "attributes" = some (.obj sa))
    (ht : dictGet tf "attributes" = some (.obj ta))
    (hnd : (sa.map Prod.fst).Nodup) :
    (∃ mf, attCopy (.obj sf) (.obj tf)
        = .ok (pySetKey (.obj tf) "attributes" (.obj mf)) ∧
      ∀ k, dictGet mf k
        = if (dictGet sa k).isSome then dictGet sa k else dictGet ta k) ∧
    ((parseQueryOutput [] true
      [[("first", HPayload.elems [0])], [("second", HPayload.elems [1])]]
      [Json.obj [("v_type", .str "V"), ("v_id", .str "1"),
        ("attributes", .obj [("a", .num 1), ("b", .num 0)])],
       Json.obj [("v_type", .str "V"), ("v_id", .str "1"),
        ("attributes", .obj [("a", .num 2)])]]).map
        (fun r => (vertexEntry r (.str "V") (.str "1")).map
          (fun e => keyOf e "attributes"))
      = .ok (some (.obj [("a", .num 2), ("b", .num 0)]))) := by
  constructor
  · refine ⟨sa.foldl (fun m p => dictSet m p.1 p.2) ta, ?_, ?_⟩
    · rw [attCopy_shape sf tf sa ta hs ht]
      rfl
    · exact foldl_dictSet_get sa ta hnd
  · decide

/-- Claim C2, witness: the overlay property at the concrete records with
source attributes a=2 and target attributes a=1, b=0. -/
theorem claim_C2_witness :
    dictGet [("attributes", Json.obj [("a", Json.num 2)])] "attributes"
      = some (.obj [("a", Json.num 2)]) ∧
    dictGet [("attributes", Json.obj [("a", Json.num 1), ("b", Json.num 0)])] "attributes"
      = some (.obj [("a", Json.num 1), ("b", Json.num 0)]) ∧
    (([("a", Json.num 2)].map Prod.fst).Nodup ∧
    ((∃ mf, attCopy (.obj [("attributes", Json.obj [("a", Json.num 2)])])
        (.obj [("attributes", Json.obj [("a", Json.num 1), ("b", Json.num 0)])])
        = .ok (pySetKey (.obj [("attributes", Json.obj [("a", Json.num 1),
            ("b", Json.num 0)])]) "attributes" (.obj mf)) ∧
      ∀ k, dictGet mf k
        = if (dictGet [("a", Json.num 2)] k).isSome then dictGet [("a", Json.num 2)] k
          else dictGet [("a", Json.num 1), ("b", Json.num 0)] k) ∧
    ((parseQueryOutput [] true
      [[("first", HPayload.elems [0])], [("second", HPayload.elems [1])]]
      [Json.obj [("v_type", .str "V"), ("v_id", .str "1"),
        ("attributes", .obj [("a", .num 1), ("b", .num 0)])],
       Json.obj [("v_type", .str "V"), ("v_id", .str "1"),
        ("attributes", .obj [("a", .num 2)])]]).map
        (fun r => (vertexEntry r (.str "V") (.str "1")).map
          (fun e => keyOf e "attributes"))
      = .ok (some (.obj [("a", .num 2), ("b", .num 0)]))))) :=
  ⟨by decide, by decide, by decide,
    claim_C2 [("attributes", Json.obj [("a", Json.num 2)])]
      [("attributes", Json.obj [("a", Json.num 1), ("b", Json.num 0)])]
      [("a", Json.num 2)] [("a", Json.num 1), ("b", Json.num 0)]
      (by decide) (by decide) (by decide)⟩

/-- Claim C9, counterexample: a payload that is a list of two records
matching neither shape is emitted once per element, so the other bucket
holds two (label, value) pairs for it, not exactly one. -/
theorem claim_C9_counterexample :
    (parseQueryOutput [] false [[("x", HPayload.elems [0, 1])]]
        [Json.obj [("a", .num 1)], Json.obj [("b", .num 2)]]).map (fun r => r.output)
      = .ok (some [("x", .arr [.obj [("a", .num 1)], .obj [("b", .num 2)]]),
                   ("x", .arr [.obj [("a", .num 1)], .obj [("b", .num 2)]])]) ∧
    ¬ ((parseQueryOutput [] false [[("x", HPayload.elems [0, 1])]]
        [Json.obj [("a", .num 1)], Json.obj [("b", .num 2)]]).map (fun r => r.output)
      = .ok (some [("x", .arr [.obj [("a", .num 1)], .obj [("b", .num 2)]])])) := by
  refine ⟨by decide, by decide⟩

/-- Claim C9 (amended): a payload that is not a non-empty list whose first
element is a dict is emitted verbatim as exactly one (label, value) pair in
the other bucket (so a scalar payload cnt=5 becomes the single pair
(cnt, 5), and so do an empty list and a list headed by a non-dict); inside
a walked list, each element matching neither shape appends the whole
payload once (one pair per such element); and an element carrying v_type
but lacking v_id raises a key error instead of being routed to the other
bucket. -/
theorem claim_C9 :
    parseQueryOutput [] false [[("cnt", HPayload.scalar (.num 5))]] []
      = .ok ⟨[], [], some [("cnt", .num 5)]⟩ ∧
    parseQueryOutput [] false [[("z", HPayload.elems [])]] []
      = .ok ⟨[], [], some [("z", .arr [])]⟩ ∧
    parseQueryOutput [] false [[("y", HPayload.elems [0])]] [.num 7]
      = .ok ⟨[], [], some [("y", .arr [.num 7])]⟩ ∧
    parseQueryOutput [] false [[("x", HPayload.elems [0, 1])]]
        [Json.obj [("a", .num 1)], Json.obj [("b", .num 2)]]
      = .ok ⟨[], [], some [("x", .arr [.obj [("a", .num 1)], .obj [("b", .num 2)]]),
                   ("x", .arr [.obj [("a", .num 1)], .obj [("b", .num 2)]])]⟩ ∧
    parseQueryOutput [] false [[("v", HPayload.elems [0])]]
        [Json.obj [("v_type", .str "P")]]
      = .error .keyError := by
  refine ⟨by decide, by decide, by decide, by decide, by decide⟩

/-! ### String lemmas for the schema text parser -/

theorem splitChar_notMem (c : Char) (xs : List Char) (h : ∀ x ∈ xs, x ≠ c) :
    splitChar c xs = [xs] := by
  induction xs with
  | nil => rfl
  | cons x t ih =>
    have hx : x ≠ c := h x (by simp)
    have ht := ih (fun y hy => h y (by simp [hy]))
    simp [splitChar, hx, ht]

theorem splitChar_append (c : Char) (xs ys : List Char) (h : ∀ x ∈ xs, x ≠ c) :
    splitChar c (xs ++ c :: ys) = xs :: splitChar c ys := by
  induction xs with
  | nil => simp [splitChar]
  | cons x t ih =>
    have hx : x ≠ c := h x (by simp)
    have ht := ih (fun y hy => h y (by simp [hy]))
    simp [splitChar, hx, ht]

theorem findSub_single (c : Char) (xs ys : List Char) (h : c ∉ xs) :
    findSub [c] (xs ++ c :: ys) = some xs.length := by
  induction xs with
  | nil => simp [findSub, leadSeg]
  | cons x t ih =>
    have hx : c ≠ x := by rintro rfl; exact h (by simp)
    have ht := ih (fun hc => h (by simp [hc]))
    simp only [List.cons_append, findSub, leadSeg]
    rw [if_neg (by simp [hx])]
    simp [List.append_eq, ht]

theorem normIdx_ofNat (L k : Nat) : normIdx L (k : Int) = min k L := by
  simp [normIdx]

theorem pyTail_concat (p r : String) : pyTail (p ++ r) ((p.data.length : Nat) : Int) = r := by
  have h1 : min p.data.length (p.data.length + r.data.length) = p.data.length := by omega
  simp only [pyTail, pySlice, String.data_append, List.length_append, normIdx_ofNat, h1]
  have h3 : (p.data.length + r.data.length) ⊓ (p.data.length + r.data.length)
      - p.data.length = r.data.length := by omega
  rw [h3, List.drop_left, List.take_length]

theorem pySlice_take (u w : String) :
    pySlice (u ++ w) 0 ((u.data.length : Nat) : Int) = u := by
  have h0 : normIdx (u.data.length + w.data.length) (0 : Int) = 0 := by
    rw [show ((0 : Int)) = ((0 : Nat) : Int) by rfl, normIdx_ofNat]
    omega
  have h1 : min u.data.length (u.data.length + w.data.length) = u.data.length := by omega
  simp only [pySlice, String.data_append, List.length_append, normIdx_ofNat, h0, h1,
    Nat.sub_zero, List.drop_zero, List.take_left]

theorem pySlice_mid (u x y : String) (i j : Int)
    (hi : i = (u.data.length : Int))
    (hj : j = ((u.data.length + x.data.length : Nat) : Int)) :
    pySlice (u ++ x ++ y) i j = x := by
  subst hi hj
  simp only [pySlice, String.data_append, List.length_append, normIdx_ofNat]
  have h1 : min u.data.length (u.data.length + x.data.length + y.data.length)
      = u.data.length := by omega
  have h2 : min (u.data.length + x.data.length)
      (u.data.length + x.data.length + y.data.length) = u.data.length + x.data.length := by
    omega
  rw [h1, h2]
  have h3 : u.data.length + x.data.length - u.data.length = x.data.length := by omega
  rw [h3, List.append_assoc, List.drop_left]
  rw [List.take_left]

theorem strAssoc (a b c : String) : a ++ b ++ c = a ++ (b ++ c) := by
  apply String.ext
  simp [String.data_append]

theorem indexEntry_general (n v a : String)
    (hn : ':' ∉ n.data)
    (hv1 : ':' ∉ v.data) (hv2 : '(' ∉ v.data) (hv3 : ')' ∉ v.data)
    (ha1 : ':' ∉ a.data) (ha2 : ')' ∉ a.data) :
    indexEntryOfLine ("  - " ++ (n ++ (":" ++ (v ++ ("(" ++ (a ++ ")"))))))
      = .ok ⟨n, v, a⟩ := by
  have htail : pyTail ("  - " ++ (n ++ (":" ++ (v ++ ("(" ++ (a ++ ")")))))) 4
      = n ++ (":" ++ (v ++ ("(" ++ (a ++ ")")))) := by
    have := pyTail_concat "  - " (n ++ (":" ++ (v ++ ("(" ++ (a ++ ")")))))
    simpa using this
  have hdata : (n ++ (":" ++ (v ++ ("(" ++ (a ++ ")"))))).data
      = n.data ++ ':' :: (v ++ ("(" ++ (a ++ ")"))).data := by
    simp [String.data_append]
  have hsplit : pySplitChar ':' (n ++ (":" ++ (v ++ ("(" ++ (a ++ ")")))))
      = [n, v ++ ("(" ++ (a ++ ")"))] := by
    unfold pySplitChar
    rw [hdata, splitChar_append _ _ _ (fun x hx => by rintro rfl; exact hn hx)]
    rw [splitChar_notMem]
    · rfl
    · intro x hx
      simp [String.data_append] at hx
      rcases hx with h | h | h | h
      · rintro rfl; exact hv1 h
      · rintro rfl; simp at h
      · rintro rfl; exact ha1 h
      · rintro rfl; simp at h
  have hd2 : (v ++ ("(" ++ (a ++ ")"))).data = v.data ++ '(' :: (a.data ++ [')']) := by
    simp [String.data_append]
  have hfind1 : pyFind (v ++ ("(" ++ (a ++ ")"))) "(" = (v.data.length : Int) := by
    unfold pyFind
    rw [show ("(" : String).data = ['('] from rfl, hd2, findSub_single _ _ _ hv2]
  have hd3 : (v ++ ("(" ++ (a ++ ")"))).data = (v.data ++ '(' :: a.data) ++ ')' :: [] := by
    simp [String.data_append]
  have hnm : ')' ∉ (v.data ++ '(' :: a.data) := by
    intro hmem
    rcases List.mem_append.mp hmem with h | h
    · exact hv3 h
    · rcases List.mem_cons.mp h with h2 | h2
      · exact absurd h2 (by decide)
      · exact ha2 h2
  have hlen : (v.data ++ '(' :: a.data).length = v.data.length + 1 + a.data.length := by
    simp
    omega
  have hfind2 : pyFind (v ++ ("(" ++ (a ++ ")"))) ")"
      = ((v.data.length + 1 + a.data.length : Nat) : Int) := by
    unfold pyFind
    rw [show (")" : String).data = [')'] from rfl, hd3, findSub_single _ _ _ hnm, hlen]
  have hslice1 : pySlice (v ++ ("(" ++ (a ++ ")"))) 0
      (pyFind (v ++ ("(" ++ (a ++ ")"))) "(") = v := by
    rw [hfind1]
    exact pySlice_take v ("(" ++ (a ++ ")"))
  have hshape : v ++ ("(" ++ (a ++ ")")) = (v ++ "(") ++ a ++ ")" := by
    apply String.ext
    simp [String.data_append]
  have hslice2 : pySlice (v ++ ("(" ++ (a ++ ")")))
      (pyFind (v ++ ("(" ++ (a ++ ")"))) "(" + 1) (pyFind (v ++ ("(" ++ (a ++ ")"))) ")")
      = a := by
    rw [hfind1, hfind2, hshape]
    apply pySlice_mid
    · simp [String.data_append]
    · simp [String.data_append]
  unfold indexEntryOfLine
  rw [htail, hsplit]
  simp only [hslice1, hslice2]

theorem indexLoop_step (res : List String) (fuel i : Nat) (acc : List IndexRec) (l : String)
    (r : IndexRec) (h : i < res.length) (hl : res.get ⟨i, h⟩ = l) (hne : l ≠ "")
    (hr : indexEntryOfLine l = .ok r) :
    indexLoop res (fuel + 1) i acc = indexLoop res fuel (i + 1) (acc ++ [r]) := by
  rw [indexLoop, dif_pos h, hl]
  simp [hne, hr]

theorem indexLoop_stop (res : List String) (fuel i : Nat) (acc : List IndexRec)
    (h : i < res.length) (hl : res.get ⟨i, h⟩ = "") :
    indexLoop res (fuel + 1) i acc = (acc, i, none) := by
  rw [indexLoop, dif_pos h, hl]
  simp

theorem lsLoop_succ (ctx : LsCtx) (res : List String) (fuel i : Nat) (st : Schema)
    (h : i < res.length) :
    lsLoop ctx res (fuel + 1) i st =
      match lsStep ctx res i (res.get ⟨i, h⟩) st with
      | (st2, _, some e) => (st2, some e)
      | (st2, i2, none) => lsLoop ctx res fuel (i2 + 1) st2 := by
  rw [lsLoop, dif_pos h]

theorem lsLoop_ge (ctx : LsCtx) (res : List String) (fuel i : Nat) (st : Schema)
    (h : ¬ i < res.length) :
    lsLoop ctx res (fuel + 1) i st = (st, none) := by
  rw [lsLoop, dif_neg h]

/-! ### Claim C4: index-block extraction -/

/-- A boundary context with an inert SHOW QUERY lookup, for concrete runs. -/
def lsCtx0 : LsCtx := ⟨fun _ => "", "g"⟩

/-- A well-formed index line as the ls output prints it. -/
def indexLineOf (e : String × String × String) : String :=
  "  - " ++ (e.1 ++ (":" ++ (e.2.1 ++ ("(" ++ (e.2.2 ++ ")")))))

/-- Name, vertex and attribute free of the delimiter characters the line
format reserves. -/
def cleanIndexEnt (e : String × String × String) : Prop :=
  ':' ∉ e.1.data ∧ ':' ∉ e.2.1.data ∧ '(' ∉ e.2.1.data ∧ ')' ∉ e.2.1.data ∧
  ':' ∉ e.2.2.data ∧ ')' ∉ e.2.2.data

instance cleanIndexEntDec (e : String × String × String) : Decidable (cleanIndexEnt e) := by
  unfold cleanIndexEnt; infer_instance

theorem indexLineOf_ne_empty (e : String × String × String) : indexLineOf e ≠ "" := by
  intro h
  have h2 : (indexLineOf e).data = [] := by rw [h]
  unfold indexLineOf at h2
  simp [String.data_append] at h2

theorem get_append_len {α : Type} (pre : List α) (x : α) (rest : List α)
    (h : pre.length < (pre ++ x :: rest).length) :
    (pre ++ x :: rest).get ⟨pre.length, h⟩ = x := by
  induction pre with
  | nil => rfl
  | cons a t ih => exact ih (by simp)

theorem indexLoop_run (ents : List (String × String × String)) (pre post : List String)
    (acc : List IndexRec) (fuel : Nat)
    (hclean : ∀ e ∈ ents, cleanIndexEnt e)
    (hfuel : ents.length < fuel) :
    indexLoop (pre ++ (ents.map indexLineOf ++ "" :: post)) fuel pre.length acc
      = (acc ++ ents.map (fun e => ⟨e.1, e.2.1, e.2.2⟩), pre.length + ents.length, none) := by
  induction ents generalizing pre acc fuel with
  | nil =>
    obtain ⟨f, rfl⟩ : ∃ f, fuel = f + 1 := ⟨fuel - 1, by omega⟩
    rw [List.map_nil, List.nil_append,
        indexLoop_stop _ f _ _ (by simp) (get_append_len pre "" post (by simp))]
    simp
  | cons e rest ih =>
    obtain ⟨f, rfl⟩ : ∃ f, fuel = f + 1 := ⟨fuel - 1, by omega⟩
    obtain ⟨h1, h2, h3, h4, h5, h6⟩ := hclean e (List.mem_cons_self e rest)
    rw [List.map_cons, List.cons_append,
        indexLoop_step _ f _ _ (indexLineOf e) ⟨e.1, e.2.1, e.2.2⟩ (by simp)
          (get_append_len pre _ _ (by simp)) (indexLineOf_ne_empty e)
          (indexEntry_general e.1 e.2.1 e.2.2 h1 h2 h3 h4 h5 h6)]
    have hres : pre ++ indexLineOf e :: (rest.map indexLineOf ++ "" :: post)
        = (pre ++ [indexLineOf e]) ++ (rest.map indexLineOf ++ "" :: post) := by
      simp
    rw [hres]
    have hstep := ih (pre ++ [indexLineOf e]) (acc ++ [⟨e.1, e.2.1, e.2.2⟩]) f
      (fun x hx => hclean x (List.mem_cons_of_mem e hx)) (by simp at hfuel ⊢; omega)
    simp only [List.length_append, List.length_cons, List.length_nil] at hstep
    rw [hstep]
    simp [Nat.add_assoc, Nat.add_comm 1 rest.length]

/-- Claim C4: index-block extraction follows the stated rule.  After an
`Indexes:` header line the dispatcher hands the cursor to the block scan;
for each subsequent non-blank line, the part of the label-stripped line
before the first colon is the index name, the remainder up to the first
parenthesis the owning vertex type, and the content inside the parentheses
the attribute name, one record per line in order, stopping at the first
blank line.  In particular the concrete text
`Indexes:\n  - idx1:Person(name)\n\n` yields exactly one record
idx1/Person/name. -/
theorem claim_C4 (ents : List (String × String × String)) (pre post : List String)
    (acc ixs : List IndexRec) (fuel i : Nat) (ctx : LsCtx) (st : Schema)
    (hclean : ∀ e ∈ ents, cleanIndexEnt e) (hfuel : ents.length < fuel)
    (hixs : st.indexes = some ixs) :
    (indexLoop (pre ++ (ents.map indexLineOf ++ "" :: post)) fuel pre.length acc
      = (acc ++ ents.map (fun e => ⟨e.1, e.2.1, e.2.2⟩), pre.length + ents.length, none))
    ∧ (lsStep ctx (pre ++ (ents.map indexLineOf ++ "" :: post)) i "Indexes:" st
      = (let r := indexLoop (pre ++ (ents.map indexLineOf ++ "" :: post))
            ((pre ++ (ents.map indexLineOf ++ "" :: post)).length + 1) (i + 1) ixs;
         ({ st with indexes := some r.1 }, r.2)))
    ∧ getSchemaLs ctx "Indexes:\n  - idx1:Person(name)\n\n" Schema.empty
      = (⟨some [], some [], some [⟨"idx1", "Person", "name"⟩], some [], some [],
          some [], some [], none, none, none⟩, none) := by
  refine ⟨indexLoop_run ents pre post acc fuel hclean hfuel, ?_, rfl⟩
  unfold lsStep
  rw [hixs]
  simp only [show pyStarts "Indexes:" "  - VERTEX" = false from rfl,
    show pyStarts "Indexes:" "  - DIRECTED" = false from rfl,
    show pyStarts "Indexes:" "  - UNDIRECTED" = false from rfl,
    show pyStarts "Indexes:" "Indexes:" = true from rfl,
    Bool.or_self, Bool.false_eq_true, if_false, if_true]

/-- Claim C4, witness: the one-line index block `  - idx1:Person(name)`
after its header, run through the block scan and the dispatcher. -/
theorem claim_C4_witness :
    (indexLoop (["Indexes:"] ++ ([("idx1", "Person", "name")].map indexLineOf ++ "" :: []))
        2 (["Indexes:"] : List String).length []
      = ([] ++ [("idx1", "Person", "name")].map
          (fun e => (⟨e.1, e.2.1, e.2.2⟩ : IndexRec)),
         (["Indexes:"] : List String).length + [("idx1", "Person", "name")].length, none))
    ∧ (lsStep lsCtx0 (["Indexes:"] ++ ([("idx1", "Person", "name")].map indexLineOf ++ "" :: []))
        0 "Indexes:" { Schema.empty with indexes := some [] }
      = (let r := indexLoop (["Indexes:"] ++ ([("idx1", "Person", "name")].map indexLineOf ++ "" :: []))
            ((["Indexes:"] ++ ([("idx1", "Person", "name")].map indexLineOf ++ "" :: [])).length + 1)
            (0 + 1) [];
         ({ { Schema.empty with indexes := some [] } with indexes := some r.1 }, r.2)))
    ∧ getSchemaLs lsCtx0 "Indexes:\n  - idx1:Person(name)\n\n" Schema.empty
      = (⟨some [], some [], some [⟨"idx1", "Person", "name"⟩], some [], some [],
          some [], some [], none, none, none⟩, none) :=
  claim_C4 [("idx1", "Person", "name")] ["Indexes:"] [] [] [] 2 0 lsCtx0
    { Schema.empty with indexes := some [] } (by decide) (by decide) rfl

/-! ### Claims C5 and C6: parser failure semantics and re-parse behaviour -/

/-- Claim C5, counterexample: the malformed index line `  - idx1:Person`
(its parenthesised attribute part missing) raises no error at all: the
parse finishes with no error and silently records the truncated entry
idx1/Perso/Perso, so no structural-parse error reports the malformation
and the bogus record is kept. -/
theorem claim_C5_counterexample :
    getSchemaLs lsCtx0 "Indexes:\n  - idx1:Person\n\n" Schema.empty
      = (⟨some [], some [], some [⟨"idx1", "Perso", "Perso"⟩], some [], some [],
          some [], some [], none, none, none⟩, none) := rfl

/-- Claim C5 (amended): malformed sub-structures raise a bare IndexError
carrying no line number and no block kind (a colon-less index line; an
index block never terminated by a blank line), and the mutations made
before the raise persist, so a partial schema accompanies the error;
other malformations (a line without the parenthesis delimiter) are not
detected at all and yield silently truncated records. -/
theorem claim_C5 :
    (getSchemaLs lsCtx0 "Indexes:\n  - idx1:Person(name)\n  - bad\n\n" Schema.empty
      = (⟨some [], some [], some [⟨"idx1", "Person", "name"⟩], some [], some [],
          some [], some [], none, none, none⟩, some .indexError))
    ∧ (getSchemaLs lsCtx0 "Indexes:\n  - idx1:Person(name)" Schema.empty
      = (⟨some [], some [], some [⟨"idx1", "Person", "name"⟩], some [], some [],
          some [], some [], none, none, none⟩, some .indexError))
    ∧ (indexEntryOfLine "  - idx1:Person" = .ok ⟨"idx1", "Perso", "Perso"⟩)
    ∧ (indexEntryOfLine "  - bad" = .error .indexError) :=
  ⟨rfl, rfl, rfl, rfl⟩

/-- Claim C6, counterexample: merging the same describe text twice into a
fresh base snapshot is not idempotent: the Indexes section receives the
same record a second time. -/
theorem claim_C6_counterexample :
    (getSchemaLs lsCtx0 "Indexes:\n  - idx1:Person(name)\n\n"
        (getSchemaLs lsCtx0 "Indexes:\n  - idx1:Person(name)\n\n" Schema.empty).1).1
      ≠ (getSchemaLs lsCtx0 "Indexes:\n  - idx1:Person(name)\n\n" Schema.empty).1 := by
  decide

/-- Claim C6 (amended): re-parsing the same text appends the Indexes
(likewise LoadingJobs, DataSources and Graphs) records again, duplicating
them, while the sections updated by keyed search (here the vertex-type
statements) are idempotent under a second parse of the same text. -/
theorem claim_C6 :
    ((getSchemaLs lsCtx0 "Indexes:\n  - idx1:Person(name)\n\n"
        (getSchemaLs lsCtx0 "Indexes:\n  - idx1:Person(name)\n\n" Schema.empty).1).1
      = ⟨some [], some [], some [⟨"idx1", "Person", "name"⟩, ⟨"idx1", "Person", "name"⟩],
          some [], some [], some [], some [], none, none, none⟩)
    ∧ ((getSchemaLs lsCtx0 "  - VERTEX Person(PRIMARY_ID id INT)\n"
        (getSchemaLs lsCtx0 "  - VERTEX Person(PRIMARY_ID id INT)\n"
          ⟨some [⟨"Person", none⟩], none, none, none, none, none, none, none, none,
            none⟩).1).1
      = (getSchemaLs lsCtx0 "  - VERTEX Person(PRIMARY_ID id INT)\n"
          ⟨some [⟨"Person", none⟩], none, none, none, none, none, none, none, none,
            none⟩).1) :=
  ⟨rfl, rfl⟩

/-! ### Claim C7: loading-job block extraction -/

theorem leadSeg_append_of_le (q p r : List Char) (h : q.length ≤ p.length) :
    leadSeg q (p ++ r) = leadSeg q p := by
  induction q generalizing p with
  | nil => simp [leadSeg]
  | cons a as ih =>
    cases p with
    | nil => simp at h
    | cons b bs =>
      simp only [List.cons_append, leadSeg, List.append_eq]
      rw [ih bs (by simpa using h)]

theorem leadSeg_self_append (p r : List Char) : leadSeg p (p ++ r) = true := by
  induction p with
  | nil => rfl
  | cons a as ih => simp [leadSeg, ih]

/-- The label-stripped body lines of a loading job, each with the newline the
accumulator adds. -/
def catLines (ls : List String) : String :=
  ls.foldr (fun b acc => pyTail b 4 ++ ("\n" ++ acc)) ""

theorem jobLoop_stop (res : List String) (fuel i : Nat) (txt l : String)
    (h : i < res.length) (hget : res.get ⟨i, h⟩ = l)
    (hl : (pyStarts l "  - CREATE" || pyStarts l "Queries") = true) :
    jobLoop res (fuel + 1) i txt = (txt, i, none) := by
  rw [jobLoop, dif_pos h, hget]
  simp [hl]

theorem jobLoop_step (res : List String) (fuel i : Nat) (txt l : String)
    (h : i < res.length) (hget : res.get ⟨i, h⟩ = l)
    (hl : (pyStarts l "  - CREATE" || pyStarts l "Queries") = false) :
    jobLoop res (fuel + 1) i txt = jobLoop res fuel (i + 1) (txt ++ pyTail l 4 ++ "\n") := by
  rw [jobLoop, dif_pos h, hget]
  simp [hl]

theorem jobLoop_run (body : List String) (pre post : List String) (trig : String)
    (txt : String) (fuel : Nat)
    (hbody : ∀ b ∈ body, (pyStarts b "  - CREATE" || pyStarts b "Queries") = false)
    (htrig : (pyStarts trig "  - CREATE" || pyStarts trig "Queries") = true)
    (hfuel : body.length < fuel) :
    jobLoop (pre ++ (body ++ trig :: post)) fuel pre.length txt
      = (txt ++ catLines body, pre.length + body.length, none) := by
  induction body generalizing pre txt fuel with
  | nil =>
    obtain ⟨f, rfl⟩ : ∃ f, fuel = f + 1 := ⟨fuel - 1, by omega⟩
    rw [List.nil_append,
        jobLoop_stop _ f _ _ trig (by simp) (get_append_len pre trig post (by simp)) htrig]
    simp [catLines]
  | cons b rest ih =>
    obtain ⟨f, rfl⟩ : ∃ f, fuel = f + 1 := ⟨fuel - 1, by omega⟩
    rw [List.cons_append,
        jobLoop_step _ f _ _ b (by simp)
          (get_append_len pre b (rest ++ trig :: post) (by simp))
          (hbody b (List.mem_cons_self b rest))]
    have hres : pre ++ b :: (rest ++ trig :: post)
        = (pre ++ [b]) ++ (rest ++ trig :: post) := by simp
    rw [hres]
    have hstep := ih (pre ++ [b]) (txt ++ pyTail b 4 ++ "\n") f
      (fun x hx => hbody x (List.mem_cons_of_mem b hx)) (by simp at hfuel ⊢; omega)
    simp only [List.length_append, List.length_cons, List.length_nil] at hstep
    rw [hstep]
    simp [catLines, strAssoc, Nat.add_assoc, Nat.add_comm 1 rest.length]

/-- Claim C7, counterexample: with a double space inside the header
`  - CREATE LOADING JOB  j1`, the recorded job name is the empty string
(element 3 of the split on the single space character, which keeps empty
tokens), while the 4th whitespace-separated token of the header line, under
either reading of the line, is `JOB` or `j1` — so the name is not the 4th
whitespace-separated token. -/
theorem claim_C7_counterexample :
    ((getSchemaLs lsCtx0 "  - CREATE LOADING JOB  j1\nQueries:\n\n" Schema.empty).1.loadingJobs
      = some [⟨"", "CREATE LOADING JOB  j1"⟩])
    ∧ pySplitWs "  - CREATE LOADING JOB  j1" = ["-", "CREATE", "LOADING", "JOB", "j1"]
    ∧ pySplitWs (pyTail "  - CREATE LOADING JOB  j1" 4) = ["CREATE", "LOADING", "JOB", "j1"] :=
  ⟨rfl, rfl, rfl⟩

theorem lsLoop_succ2 (ctx : LsCtx) (res : List String) (fuel i : Nat) (st : Schema)
    (l : String) (h : i < res.length) (hget : res.get ⟨i, h⟩ = l) :
    lsLoop ctx res (fuel + 1) i st =
      match lsStep ctx res i l st with
      | (st2, _, some e) => (st2, some e)
      | (st2, i2, none) => lsLoop ctx res fuel (i2 + 1) st2 := by
  rw [lsLoop, dif_pos h, hget]

/-- Claim C7 (amended): for a loading-job header, the recorded name is
element 3 of the label-stripped header split on the single space character
(empty tokens kept, so it can differ from the 4th whitespace-separated
token); the subsequent lines are accumulated label-stripped until a line
starts with `  - CREATE` or `Queries`; trailing spaces and newlines are
trimmed from the recorded statement; and the branch leaves the cursor one
line before the triggering line, so the outer loop advance makes it
reprocess exactly the triggering line. -/
theorem claim_C7 (ctx : LsCtx) (pre post body : List String) (hdr rest2 trig jobName : String)
    (st : Schema) (js : List JobRec) (fuel : Nat)
    (hhdr : hdr = "CREATE LOADING JOB" ++ rest2)
    (hname : (pySplitChar ' ' hdr).get? 3 = some jobName)
    (hbody : ∀ b ∈ body, (pyStarts b "  - CREATE" || pyStarts b "Queries") = false)
    (htrig : (pyStarts trig "  - CREATE" || pyStarts trig "Queries") = true)
    (hjs : st.loadingJobs = some js) :
    (lsStep ctx (pre ++ (("  - " ++ hdr) :: (body ++ trig :: post))) pre.length
        ("  - " ++ hdr) st
      = ({ st with loadingJobs := some (js ++ [⟨jobName,
            pyRstripSet [' ', '\n'] ((hdr ++ "\n") ++ catLines body)⟩]) },
         pre.length + body.length, none))
    ∧ (lsLoop ctx (pre ++ (("  - " ++ hdr) :: (body ++ trig :: post))) (fuel + 1)
        pre.length st
      = lsLoop ctx (pre ++ (("  - " ++ hdr) :: (body ++ trig :: post))) fuel
        (pre.length + body.length + 1)
        ({ st with loadingJobs := some (js ++ [⟨jobName,
            pyRstripSet [' ', '\n'] ((hdr ++ "\n") ++ catLines body)⟩]) })) := by
  have hl : ("  - " ++ hdr) = "  - CREATE LOADING JOB" ++ rest2 := by
    rw [hhdr]
    apply String.ext
    simp [String.data_append]
  have hdata : ("  - CREATE LOADING JOB" ++ rest2).data
      = "  - CREATE LOADING JOB".data ++ rest2.data := by simp [String.data_append]
  have hst1 : pyStarts ("  - " ++ hdr) "  - VERTEX" = false := by
    rw [hl]; unfold pyStarts; rw [hdata, leadSeg_append_of_le _ _ _ (by decide)]; decide
  have hst2 : pyStarts ("  - " ++ hdr) "  - DIRECTED" = false := by
    rw [hl]; unfold pyStarts; rw [hdata, leadSeg_append_of_le _ _ _ (by decide)]; decide
  have hst3 : pyStarts ("  - " ++ hdr) "  - UNDIRECTED" = false := by
    rw [hl]; unfold pyStarts; rw [hdata, leadSeg_append_of_le _ _ _ (by decide)]; decide
  have hst4 : pyStarts ("  - " ++ hdr) "Indexes:" = false := by
    rw [hl]; unfold pyStarts; rw [hdata, leadSeg_append_of_le _ _ _ (by decide)]; decide
  have hst5 : pyStarts ("  - " ++ hdr) "  - CREATE LOADING JOB" = true := by
    rw [hl]; unfold pyStarts; rw [hdata]; exact leadSeg_self_append _ _
  have htmp : pyTail ("  - " ++ hdr) 4 = hdr := by
    have h4 := pyTail_concat "  - " hdr
    simpa using h4
  have hR : pre ++ (("  - " ++ hdr) :: (body ++ trig :: post))
      = (pre ++ [("  - " ++ hdr)]) ++ (body ++ trig :: post) := by simp
  have hrun := jobLoop_run body (pre ++ [("  - " ++ hdr)]) post trig (hdr ++ "\n")
      (((pre ++ [("  - " ++ hdr)]) ++ (body ++ trig :: post)).length + 1) hbody htrig
      (by simp; omega)
  have hlen : (pre ++ [("  - " ++ hdr)]).length = pre.length + 1 := by simp
  rw [hlen] at hrun
  have hmain : lsStep ctx (pre ++ (("  - " ++ hdr) :: (body ++ trig :: post))) pre.length
      ("  - " ++ hdr) st
      = ({ st with loadingJobs := some (js ++ [⟨jobName,
            pyRstripSet [' ', '\n'] ((hdr ++ "\n") ++ catLines body)⟩]) },
         pre.length + body.length, none) := by
    unfold lsStep
    simp only [hst1, hst2, hst3, hst4, hst5, Bool.or_self, Bool.false_eq_true, if_false,
      if_true, htmp, hname]
    rw [hR, hrun]
    simp only [hjs]
    have hsub : pre.length + 1 + body.length - 1 = pre.length + body.length := by omega
    rw [hsub]
  refine ⟨hmain, ?_⟩
  rw [lsLoop_succ2 ctx _ fuel _ st ("  - " ++ hdr) (by simp)
      (get_append_len pre ("  - " ++ hdr) (body ++ trig :: post) (by simp)), hmain]

/-- Claim C7, witness: a concrete job header with one body line, one
trailing trigger line and a seeded schema. -/
theorem claim_C7_witness :
    (lsStep lsCtx0 ([] ++ (("  - " ++ "CREATE LOADING JOB j1 FOR GRAPH g") ::
        (["    LOAD x"] ++ "Queries:" :: [""]))) ([] : List String).length
        ("  - " ++ "CREATE LOADING JOB j1 FOR GRAPH g")
        ⟨none, none, none, none, some [], none, none, none, none, none⟩
      = (⟨none, none, none, none, some [⟨"j1", "CREATE LOADING JOB j1 FOR GRAPH g\nLOAD x"⟩],
          none, none, none, none, none⟩, 1, none))
    ∧ (lsLoop lsCtx0 ([] ++ (("  - " ++ "CREATE LOADING JOB j1 FOR GRAPH g") ::
        (["    LOAD x"] ++ "Queries:" :: [""]))) (3 + 1) ([] : List String).length
        ⟨none, none, none, none, some [], none, none, none, none, none⟩
      = lsLoop lsCtx0 ([] ++ (("  - " ++ "CREATE LOADING JOB j1 FOR GRAPH g") ::
        (["    LOAD x"] ++ "Queries:" :: [""]))) 3 2
        ⟨none, none, none, none, some [⟨"j1", "CREATE LOADING JOB j1 FOR GRAPH g\nLOAD x"⟩],
          none, none, none, none, none⟩) := by
  have h := claim_C7 lsCtx0 [] [""] ["    LOAD x"] "CREATE LOADING JOB j1 FOR GRAPH g"
    " j1 FOR GRAPH g" "Queries:" "j1"
    ⟨none, none, none, none, some [], none, none, none, none, none⟩ [] 3
    rfl rfl (by decide) (by decide) rfl
  exact h

/-! ### Claim C8: getSchema caching -/

/-- Claim C8, counterexample: with a cached snapshot present (non-empty)
and force false, the full load is not a no-op: every collector whose
section is missing from the cache still runs, and the embedded text parse
seeds the seven parser sections, so the returned snapshot differs from the
cached one. -/
theorem claim_C8_counterexample :
    (getSchema ⟨some [], some [], none, none, none, none, none, none, none, none⟩
        (fun t => ({ t with udts := some [] }, none)) lsCtx0 ""
        (fun t => (t, none))
        (fun t => ({ t with users := some [] }, none))
        (fun t => ({ t with groups := some [] }, none))
        true false
        ⟨some [], none, none, none, none, none, none, none, none, none⟩).1
      ≠ ⟨some [], none, none, none, none, none, none, none, none, none⟩ := by
  decide

/-- Claim C8 (amended): with force false the cached snapshot is only
returned unchanged when every guarded section (UDTs, Queries, Users,
Groups) is already present; in that case, for any collectors and any ls
text, the load is a no-op both for the full and the non-full variant. -/
theorem claim_C8 (fetchBase : Schema)
    (udtStep queriesStep usersStep groupsStep : Schema → Schema × Option PyErr)
    (ctx : LsCtx) (lsText : String) (full : Bool) (s : Schema)
    (hne : s ≠ Schema.empty)
    (hu : s.udts.isSome) (hq : s.queries.isSome) (hus : s.users.isSome)
    (hg : s.groups.isSome) :
    getSchema fetchBase udtStep ctx lsText queriesStep usersStep groupsStep full false s
      = (s, none) := by
  obtain ⟨u, hu2⟩ := Option.isSome_iff_exists.mp hu
  obtain ⟨q, hq2⟩ := Option.isSome_iff_exists.mp hq
  obtain ⟨us, hus2⟩ := Option.isSome_iff_exists.mp hus
  obtain ⟨g, hg2⟩ := Option.isSome_iff_exists.mp hg
  cases full with
  | false => simp [getSchema, decide_eq_false hne]
  | true => simp [getSchema, decide_eq_false hne, hu2, hq2, hus2, hg2]

/-- Claim C8, witness: a snapshot with every section present is returned
unchanged by a full non-forced load. -/
theorem claim_C8_witness :
    getSchema Schema.empty (fun t => (t, none)) lsCtx0 "" (fun t => (t, none))
        (fun t => (t, none)) (fun t => (t, none)) true false
        ⟨some [], some [], some [], some [], some [], some [], some [], some [], some [],
          some []⟩
      = (⟨some [], some [], some [], some [], some [], some [], some [], some [], some [],
          some []⟩, none) :=
  claim_C8 Schema.empty (fun t => (t, none)) (fun t => (t, none)) (fun t => (t, none))
    (fun t => (t, none)) lsCtx0 "" true
    ⟨some [], some [], some [], some [], some [], some [], some [], some [], some [],
      some []⟩
    (by decide) rfl rfl rfl rfl

/-! ### Claim C3: edge identity, merging and reverse edges -/

/-- Claim C3: (i) for a decoded edge occurrence the synthesized identity is
exactly the composite fromType(fromId)->toType(toId) — stated for arbitrary
endpoint type and id strings and an arbitrary attribute dictionary — and a
directed owning type declaring a (non-empty, hence truthy) reverse-edge
name gets that name attached to the occurrence; (ii) two occurrences of the
same edge type with the same composite identity are merged into one
canonical entry regardless of their differing attribute sets, the second
set overlaid on the first, with both occurrences counted and labelled;
(iii) for an undirected owning type no reverse-edge name is attached. -/
theorem claim_C3 (ft fi tt ti : String) (c : Char) (cs : List Char)
    (attrs1 attrs2 : List (String × Json)) :
    (parseQueryOutput [⟨"knows", true, [("REVERSE_EDGE", Json.str ⟨c :: cs⟩)], none⟩] true
      [[("result", HPayload.elems [0])]]
      [Json.obj [("e_type", Json.str "knows"), ("from_type", Json.str ft),
         ("from_id", Json.str fi), ("to_type", Json.str tt), ("to_id", Json.str ti),
         ("attributes", Json.obj attrs1)]]
      = .ok ⟨[],
          [(Json.str "knows",
            [(Json.str (ft ++ "(" ++ fi ++ ")->" ++ tt ++ "(" ++ ti ++ ")"),
              Json.obj [("e_type", Json.str "knows"), ("from_type", Json.str ft),
                ("from_id", Json.str fi), ("to_type", Json.str tt), ("to_id", Json.str ti),
                ("attributes", Json.obj attrs1),
                ("e_id", Json.str (ft ++ "(" ++ fi ++ ")->" ++ tt ++ "(" ++ ti ++ ")")),
                ("reverse_edge", Json.str ⟨c :: cs⟩), ("x_occurrences", Json.num 1),
                ("x_sources", Json.arr [Json.str "result"])])])],
          none⟩)
    ∧ (parseQueryOutput [⟨"knows", true, [("REVERSE_EDGE", Json.str ⟨c :: cs⟩)], none⟩] true
      [[("result", HPayload.elems [0, 1])]]
      [Json.obj [("e_type", Json.str "knows"), ("from_type", Json.str "Person"),
         ("from_id", Json.str "1"), ("to_type", Json.str "Person"),
         ("to_id", Json.str "2"), ("attributes", Json.obj attrs1)],
       Json.obj [("e_type", Json.str "knows"), ("from_type", Json.str "Person"),
         ("from_id", Json.str "1"), ("to_type", Json.str "Person"),
         ("to_id", Json.str "2"), ("attributes", Json.obj attrs2)]]
      = .ok ⟨[],
          [(Json.str "knows", [(Json.str "Person(1)->Person(2)",
            Json.obj [("e_type", Json.str "knows"), ("from_type", Json.str "Person"),
              ("from_id", Json.str "1"), ("to_type", Json.str "Person"),
              ("to_id", Json.str "2"),
              ("attributes",
                Json.obj (attrs2.foldl (fun m p => dictSet m p.1 p.2) attrs1)),
              ("e_id", Json.str "Person(1)->Person(2)"),
              ("reverse_edge", Json.str ⟨c :: cs⟩), ("x_occurrences", Json.num 2),
              ("x_sources", Json.arr [Json.str "result", Json.str "result"])])])],
          none⟩)
    ∧ (parseQueryOutput [⟨"likes", false, [], none⟩] true
      [[("result", HPayload.elems [0])]]
      [Json.obj [("e_type", Json.str "likes"), ("from_type", Json.str ft),
         ("from_id", Json.str fi), ("to_type", Json.str tt), ("to_id", Json.str ti),
         ("attributes", Json.obj attrs1)]]
      = .ok ⟨[],
          [(Json.str "likes",
            [(Json.str (ft ++ "(" ++ fi ++ ")->" ++ tt ++ "(" ++ ti ++ ")"),
              Json.obj [("e_type", Json.str "likes"), ("from_type", Json.str ft),
                ("from_id", Json.str fi), ("to_type", Json.str tt), ("to_id", Json.str ti),
                ("attributes", Json.obj attrs1),
                ("e_id", Json.str (ft ++ "(" ++ fi ++ ")->" ++ tt ++ "(" ++ ti ++ ")")),
                ("x_occurrences", Json.num 1),
                ("x_sources", Json.arr [Json.str "result"])])])],
          none⟩) :=
  ⟨rfl, rfl, rfl⟩
